import Mathlib

/-!
Verification development for the pyang Rust code-generator plugin
(`tools/pyang_plugins/bgpyang2rust.py`).  The Python source is shallowly
embedded: pure string-casing helpers become Lean functions on `String`,
the mutable per-invocation context becomes explicit state records, and
operations that can raise Python exceptions (missing attributes, failing
dictionary lookups, `None + str` concatenation) return `Option`, with
`none` standing for an uncaught runtime error.
-/

set_option maxRecDepth 4096

deriving instance DecidableEq for Except

namespace Bgp

/-! ## String helpers from the source -/

/-- Python `str.capitalize`: first character upper-cased, the rest
lower-cased (ASCII view, which covers all inputs the plugin sees). -/
def pyCapitalize (s : String) : String :=
  match s.data with
  | [] => ""
  | c :: cs => String.mk (c.toUpper :: cs.map Char.toLower)

/-- Python `str.lower`. -/
def pyLower (s : String) : String :=
  String.mk (s.data.map Char.toLower)

/-- Python `str.title` restricted to one chunk: an alphabetic character is
upper-cased when the previous character is not alphabetic and lower-cased
otherwise. -/
def pyTitleAux : List Char → Bool → List Char
  | [], _ => []
  | c :: cs, prevAlpha =>
    if c.isAlpha then
      (if prevAlpha then c.toLower else c.toUpper) :: pyTitleAux cs true
    else
      c :: pyTitleAux cs false

/-- Python `str.title`. -/
def pyTitle (s : String) : String :=
  String.mk (pyTitleAux s.data false)

/-- Split a character list on a separator predicate, keeping empty
chunks, like Python `str.split(sep)` with a one-character separator
(structurally recursive so that closed terms evaluate). -/
def splitCharsP (p : Char → Bool) : List Char → List (List Char)
  | [] => [[]]
  | c :: cs =>
    let r := splitCharsP p cs
    if p c then [] :: r
    else
      match r with
      | [] => [[c]]
      | h :: t => (c :: h) :: t

/-- Python `s.split(sep)` for a one-character separator. -/
def strSplitOnChar (sep : Char) (s : String) : List String :=
  (splitCharsP (fun c => c = sep) s.data).map String.mk

def listPre : List Char → List Char → Bool
  | [], _ => true
  | _ :: _, [] => false
  | p :: ps, c :: cs => p = c && listPre ps cs

/-- Python `s.startswith(pat)`. -/
def strStartsWith (s pat : String) : Bool := listPre pat.data s.data

/-- Python `s.endswith(pat)`. -/
def strEndsWith (s pat : String) : Bool := listPre pat.data.reverse s.data.reverse

/-- Python `s.replace(c, rep)` for a one-character pattern. -/
def charReplace (c : Char) (rep : String) (s : String) : String :=
  String.mk (s.data.foldr
    (fun ch acc => if ch = c then rep.data ++ acc else ch :: acc) [])

/-- Python `sep.join(parts)`. -/
def strIntercalate (sep : String) : List String → String
  | [] => ""
  | [x] => x
  | x :: y :: rest => x ++ sep ++ strIntercalate sep (y :: rest)

/-- Source `convert_to_golang`: 'hoge-hoge' becomes 'HogeHoge'; dots are
kept as component separators. -/
def convert_to_golang (s : String) : String :=
  strIntercalate "." ((strSplitOnChar '.' s).map
    (fun x => String.join ((strSplitOnChar '-' x).map pyCapitalize)))

/-- Source `convert_to_camelcase`: split on '_' or '-', title-case each
chunk, concatenate. -/
def convert_to_camelcase (s : String) : String :=
  String.join ((splitCharsP (fun c => c = '_' ∨ c = '-') s.data).map
    (fun cs => pyTitle (String.mk cs)))

/-! ## Fixed translation tables from the source -/

/-- Source `_type_translation_map`. -/
def typeTranslationMap : List (String × String) :=
  [("union", "String"),
   ("decimal64", "f64"),
   ("boolean", "bool"),
   ("empty", "bool"),
   ("inet:ip-address", "String"),
   ("inet:ip-prefix", "String"),
   ("inet:ipv4-address", "String"),
   ("inet:as-number", "u32"),
   ("bgp-set-community-option-type", "String"),
   ("inet:port-number", "u16"),
   ("yang:timeticks", "i64"),
   ("ptypes:install-protocol-type", "String"),
   ("binary", "Vec<u8>"),
   ("route-family", "u32"),
   ("bgp-capability", "Vec<u8>"),
   ("bgp-open-message", "Vec<u8>")]

/-- Source `_builtins_type_translation_map`. -/
def builtinsTypeTranslationMap : List (String × String) :=
  [("union", "String"),
   ("int8", "i8"),
   ("int16", "i16"),
   ("int32", "i32"),
   ("int64", "i64"),
   ("string", "String"),
   ("uint8", "u8"),
   ("uint16", "u16"),
   ("uint32", "u32"),
   ("uint64", "u64")]

/-- Source `_type_builtin`. -/
def typeBuiltin : List String :=
  ["union", "int8", "int16", "int32", "int64", "string",
   "uint8", "uint16", "uint32", "uint64"]

/-- Source `_type_enum_case`. -/
def typeEnumCase : List String := ["empty"]

/-- Source `_module_excluded`. -/
def moduleExcluded : List String := ["ietf-inet-types", "ietf-yang-types"]

/-- Source `_path_exclude`. -/
def pathExclude : List String :=
  ["/rpol:routing-policy/rpol:defined-sets/rpol:neighbor-sets/rpol:neighbor-set/rpol:neighbor",
   "/rpol:routing-policy/rpol:defined-sets/bgp-pol:bgp-defined-sets/bgp-pol:community-sets/bgp-pol:community-set/bgp-pol:community-member",
   "/rpol:routing-policy/rpol:defined-sets/bgp-pol:bgp-defined-sets/bgp-pol:ext-community-sets/bgp-pol:ext-community-set/bgp-pol:ext-community-member",
   "/rpol:routing-policy/rpol:defined-sets/bgp-pol:bgp-defined-sets/bgp-pol:as-path-sets/bgp-pol:as-path-set/bgp-pol:as-path-set-member"]

/-- Source `_typedef_exclude`. -/
def typedefExclude : List String :=
  ["/gobgp:bgp-capability", "/gobgp:bgp-open-message"]

/-- Python assoc-list lookup used to model dictionary reads. -/
def lookA {ν : Type} : List (String × ν) → String → Option ν
  | [], _ => none
  | (k, v) :: rest, key => if k = key then some v else lookA rest key

/-- Python dictionary assignment on an assoc list: an existing key keeps
its position and gets the new value, a new key is appended at the end
(CPython dict insertion-order semantics). -/
def updA {ν : Type} : List (String × ν) → String → ν → List (String × ν)
  | [], key, v => [(key, v)]
  | (k, v') :: rest, key, v =>
    if k = key then (k, v) :: rest else (k, v') :: updA rest key v

/-- Source `translate_type`: map hit or the key itself. -/
def translate_type (key : String) : String :=
  match lookA typeTranslationMap key with
  | some v => v
  | none => key

/-! ## Modules and `get_orig_*` (origin-prefix computation) -/

/-- A pyang module as seen through its `i_orig_module` chain: either a
plain module carrying its own prefix, or a module whose `i_orig_module`
attribute points at another module. -/
inductive PyMod where
  | base (iPfx : String)
  | wrapped (iPfx : String) (orig : PyMod)
deriving DecidableEq, Repr

/-- Source `get_orig_prefix` (named `get_orig_pfx` here).  When the
module's `i_orig_module` attribute is set the recursive call's result is
discarded and the function falls off its end, i.e. returns Python `None`
(`Option.none`); only a module without an origin returns its own prefix. -/
def get_orig_pfx : PyMod → Option String
  | .base p => some p
  | .wrapped _ orig =>
    let _ := get_orig_pfx orig
    none

/-! ## Type statements and schema nodes -/

/-- A `type` statement attached to a leaf, leaf-list or typedef.
`arg` is the type keyword, `baseArg` the `base` substatement of an
identityref, `pathArg` the `path` substatement of a leafref, `target` the
type statement of the leafref's resolved target node
(`i_type_spec.i_target_node.search_one('type')`), `enumVals` the argument
strings of an enumeration's `enum` substatements, and `origPfx` the
prefix of the type statement's `i_orig_module`. -/
inductive TypeObj where
  | mk (arg : String) (baseArg : Option String) (pathArg : Option String)
       (target : Option TypeObj) (enumVals : List String)
       (descr : Option String) (origPfx : String)

def TypeObj.arg : TypeObj → String
  | .mk a _ _ _ _ _ _ => a

def TypeObj.baseArg : TypeObj → Option String
  | .mk _ b _ _ _ _ _ => b

def TypeObj.pathArg : TypeObj → Option String
  | .mk _ _ p _ _ _ _ => p

def TypeObj.target : TypeObj → Option TypeObj
  | .mk _ _ _ t _ _ _ => t

def TypeObj.enumVals : TypeObj → List String
  | .mk _ _ _ _ e _ _ => e

def TypeObj.descr : TypeObj → Option String
  | .mk _ _ _ _ _ d _ => d

def TypeObj.origPfx : TypeObj → String
  | .mk _ _ _ _ _ _ o => o

/-- Statement kinds the plugin distinguishes. -/
inductive YKind where
  | container | list | leaf | leafList | choice | case | typedef | identity
deriving DecidableEq, Repr

/-- A schema node (pyang statement) as the plugin reads it: `nid` is an
identity tag standing for Python object identity, `typ` the node's
`type` substatement (for leaves), `keyArg` the `key` substatement (for
lists), `descr` the `description` substatement, `iOrig` the statement's
`i_orig_module`, and `path` the structural path pyang computed for it. -/
inductive SNode where
  | mk (nid : Nat) (kind : YKind) (arg : String) (typ : Option TypeObj)
       (keyArg : Option String) (descr : Option String) (iOrig : PyMod)
       (path : String) (children : List SNode)

def SNode.nid : SNode → Nat
  | .mk n _ _ _ _ _ _ _ _ => n

def SNode.kind : SNode → YKind
  | .mk _ k _ _ _ _ _ _ _ => k

def SNode.arg : SNode → String
  | .mk _ _ a _ _ _ _ _ _ => a

def SNode.typ : SNode → Option TypeObj
  | .mk _ _ _ t _ _ _ _ _ => t

def SNode.keyArg : SNode → Option String
  | .mk _ _ _ _ k _ _ _ _ => k

def SNode.descr : SNode → Option String
  | .mk _ _ _ _ _ d _ _ _ => d

def SNode.iOrig : SNode → PyMod
  | .mk _ _ _ _ _ _ o _ _ => o

def SNode.path : SNode → String
  | .mk _ _ _ _ _ _ _ p _ => p

def SNode.children : SNode → List SNode
  | .mk _ _ _ _ _ _ _ _ cs => cs

/-! ## Predicates from the source -/

def is_leafref (t : TypeObj) : Bool := t.arg = "leafref"

def is_identityref (t : TypeObj) : Bool := t.arg = "identityref"

def is_enum (t : TypeObj) : Bool := t.arg = "enumeration"

def is_union (t : TypeObj) : Bool := t.arg = "union"

def is_leaf (s : SNode) : Bool := s.kind = .leaf

def is_leaflist (s : SNode) : Bool := s.kind = .leafList

def is_list (s : SNode) : Bool := s.kind = .list

def is_container (s : SNode) : Bool := s.kind = .container

def is_case (s : SNode) : Bool := s.kind = .case

def is_choice (s : SNode) : Bool := s.kind = .choice

def is_builtin_type (t : TypeObj) : Bool := t.arg ∈ typeBuiltin

def is_translation_required (t : TypeObj) : Bool :=
  (typeTranslationMap.map Prod.fst).contains t.arg

/-- Source `pickup_choice`: concatenate the children of all `case`
children of a choice. -/
def pickup_choice_list : List SNode → List SNode
  | [] => []
  | c :: rest =>
    if is_case c then c.children ++ pickup_choice_list rest
    else pickup_choice_list rest

def pickup_choice (c : SNode) : List SNode :=
  pickup_choice_list c.children

/-- Source `is_enum_choice`: `all(e.search_one('type').arg in
_type_enum_case for e in s.i_children)` with Python's short-circuiting;
a child without a `type` substatement makes the generator crash, modeled
as `none`. -/
def is_enum_choice_list : List SNode → Option Bool
  | [] => some true
  | c :: rest =>
    match c.typ with
    | none => none
    | some t => if t.arg ∈ typeEnumCase then is_enum_choice_list rest else some false

/-- Source `dig_leafref`: follow the leafref's target type statement,
chasing chains of leafrefs; a leafref without a resolved target crashes
(`none`). -/
def dig_leafref : TypeObj → Option TypeObj
  | .mk _ _ _ none _ _ _ => none
  | .mk _ _ _ (some t) _ _ _ =>
    if is_leafref t then dig_leafref t else some t

/-- Replace a node's `i_children`, as the source does when it flattens a
choice (`c.i_children = picks`). -/
def SNode.withChildren : SNode → List SNode → SNode
  | .mk n k a t ka d o p _, cs => .mk n k a t ka d o p cs

/-! ## The struct registry (`golang_struct_names` / `golang_struct_def`) -/

/-- A registered struct candidate: the node (with flattened children for
choices) together with the attributes the visitor attached to it
(`uniq_name`, `golang_name`, `module_prefix`). -/
structure RegEntry where
  node : SNode
  uniqName : String
  golangName : String
  modulePfx : String

structure RegState where
  names : List (String × RegEntry)
  defs : List RegEntry

/-- Python `list.index(ext_c)` on `golang_struct_def`: statements compare
by object identity, modeled by the `nid` tag.  (The source never reaches
the not-found `ValueError`; the model returns the list length there, so
the subsequent `list.set` is a no-op.) -/
def regIndex : List RegEntry → Nat → Nat
  | [], _ => 0
  | e :: rest, n => if e.node.nid = n then 0 else regIndex rest n + 1

/-- Source `visit_children` lines 356-369: register a struct candidate
under `(prefix, unique-name)`.  On a key collision the candidate with
strictly more children wins and replaces the previous entry both in the
name map and in place in the emission-order list. -/
def registerStruct (st : RegState) (pfxName : String) (ent : RegEntry) : RegState :=
  match lookA st.names pfxName with
  | some extC =>
    if extC.node.children.length < ent.node.children.length then
      RegState.mk (updA st.names pfxName ent)
        (st.defs.set (regIndex st.defs extC.node.nid) ent)
    else st
  | none =>
    RegState.mk (updA st.names pfxName ent) (st.defs ++ [ent])

/-! ## The typedef registry (`golang_typedef_map`) -/

/-- An entry of `golang_typedef_map`: a typedef statement, an embedded
enumeration leaf, or a collapsed enum choice, with the attributes the
visitor attached. -/
structure TDEntry where
  arg : String
  path : String
  golangName : String
  typ : Option TypeObj
  kindIsChoice : Bool
  descr : Option String
  flatChildren : List SNode

abbrev TypedefMap := List (String × List (String × TDEntry))

/-- Source `define_enum`: store the node in `golang_typedef_map` under
the visiting module's own prefix, with `golang_name` recomputed from the
node's declared name (`c.arg`). -/
def tdEntryOf (c : SNode) : TDEntry :=
  TDEntry.mk c.arg c.path (convert_to_golang c.arg) c.typ (is_choice c) c.descr
    c.children

def define_enum_upd (tdMap : TypedefMap) (modPfx : String) (ent : TDEntry) : TypedefMap :=
  match lookA tdMap modPfx with
  | some m => updA tdMap modPfx (updA m ent.arg ent)
  | none => updA tdMap modPfx [(ent.arg, ent)]

/-! ## The visitor (`visit_children`) -/

/-- Visitor context: struct registry plus typedef registry. -/
structure VCtx where
  reg : RegState
  tdMap : TypedefMap

/-- Unique-name assignment, source lines 333-341.  `parentUniq` is the
parent statement's `uniq_name` attribute (absent when the parent never
received one, in which case reading it crashes). -/
def uniqNameOf (parentUniq : Option String) (pfx : Option String) (c : SNode) :
    Option String :=
  if c.arg = "config" then
    match parentUniq with
    | none => none
    | some pu => some (pu ++ "-config")
  else if c.arg = "state" then
    match parentUniq with
    | none => none
    | some pu => some (pu ++ "-state")
  else if c.arg = "graceful-restart" ∧ pfx = some "bgp-mp" then
    some "mp-graceful-restart"
  else some c.arg

/-- The origin prefix the visitor computes for a node, source lines
326-331: a `case` node borrows its parent's `i_orig_module`.  The outer
`Option` is a crash (reading a missing attribute); the inner one is the
Python `None` that `get_orig_prefix` can genuinely return. -/
def nodePfx (parentOrig : Option PyMod) (c : SNode) : Option (Option String) :=
  if is_case c then
    match parentOrig with
    | none => none
    | some pm => some (get_orig_pfx pm)
  else
    some (get_orig_pfx c.iOrig)

/-- Source `visit_children`.  `fuel` only bounds the recursion (the
Python recursion is bounded by the finite statement tree); every
recursive call consumes one unit, and exhaustion yields `none`, which no
sufficiently-fueled run reaches.  `parentOrig`/`parentUniq` stand for the
attributes reachable through `c.parent`.  Children of a flattened choice
keep the original `case` statement as their Python parent, which never
received a `uniq_name`, so the recursion into the picks passes `none`. -/
def visit_children (modPfx : String) :
    Nat → Option PyMod → Option String → VCtx → List SNode → Option VCtx
  | 0, _, _, _, _ => none
  | _ + 1, _, _, ctx, [] => some ctx
  | fuel + 1, parentOrig, parentUniq, ctx, c :: rest =>
    match nodePfx parentOrig c with
    | none => none
    | some pfx =>
      match uniqNameOf parentUniq pfx c with
      | none => none
      | some uniq =>
        if is_leaf c then
          match c.typ with
          | none => none
          | some t =>
            let ctx' := if is_enum t then
                VCtx.mk ctx.reg (define_enum_upd ctx.tdMap modPfx (tdEntryOf c))
              else ctx
            visit_children modPfx fuel parentOrig parentUniq ctx' rest
        else if is_list c ∨ is_container c ∨ is_choice c then
          if is_choice c then
            let picks := pickup_choice c
            let cFlat := c.withChildren picks
            match is_enum_choice_list picks with
            | none => none
            | some true =>
              let ctx' := VCtx.mk ctx.reg
                (define_enum_upd ctx.tdMap modPfx (tdEntryOf cFlat))
              visit_children modPfx fuel parentOrig parentUniq ctx' rest
            | some false =>
              match pfx with
              | none => none
              | some p =>
                let ent := RegEntry.mk cFlat uniq (convert_to_golang uniq) p
                let ctx' := VCtx.mk (registerStruct ctx.reg (p ++ ":" ++ uniq) ent) ctx.tdMap
                match visit_children modPfx fuel none none ctx' picks with
                | none => none
                | some ctx'' =>
                  visit_children modPfx fuel parentOrig parentUniq ctx'' rest
          else
            match pfx with
            | none => none
            | some p =>
              let ent := RegEntry.mk c uniq (convert_to_golang uniq) p
              let ctx' := VCtx.mk (registerStruct ctx.reg (p ++ ":" ++ uniq) ent) ctx.tdMap
              match visit_children modPfx fuel (some c.iOrig) (some uniq) ctx' c.children with
              | none => none
              | some ctx'' =>
                visit_children modPfx fuel parentOrig parentUniq ctx'' rest
        else if is_case c then
          let caseOrig := parentOrig
          match visit_children modPfx fuel caseOrig (some uniq) ctx c.children with
          | none => none
          | some ctx'' =>
            visit_children modPfx fuel parentOrig parentUniq ctx'' rest
        else
          visit_children modPfx fuel parentOrig parentUniq ctx rest

/-! ## The module dependency resolver (`check_module_deps`) -/

/-- A pyang module as the dependency resolver sees it: its own prefix,
its name, and `i_prefixes` (alias, referenced module) pairs, the
referenced module given as an index into the module universe. -/
structure PModule where
  iPfx : String
  iModulename : String
  iPfxes : List (String × Nat)
deriving DecidableEq, Repr

/-- The resolver's context slice: `prefix_rel` and `module_deps`
(module objects modeled by their indices). -/
structure DepState where
  pfxRel : List (String × String)
  moduleDeps : List Nat
deriving DecidableEq, Repr

/-- Source `check_module_deps`: the loop body over `mod.i_prefixes`.
`env` is `ctx.get_module` (by module index; `none` means the module is
not loaded and the entry is skipped).  The recursion into an imported
module happens before the `prefix_rel` update and the conditional append;
`fuel` bounds the recursion depth exactly as in `visit_children`
(`none` = exhaustion, which no sufficiently-fueled run reaches). -/
def cmdGo (env : Nat → Option PModule) :
    Nat → String → List (String × Nat) → DepState → Option DepState
  | 0, _, _, _ => none
  | _ + 1, _, [], st => some st
  | fuel + 1, ownPfx, (k, v) :: rest, st =>
    match env v with
    | none => cmdGo env fuel ownPfx rest st
    | some m =>
      match (if m.iPfx ≠ ownPfx then cmdGo env fuel m.iPfx m.iPfxes st
             else some st) with
      | none => none
      | some st1 =>
        let st2 := DepState.mk (updA st1.pfxRel m.iPfx k) st1.moduleDeps
        let st3 :=
          if v ∉ st2.moduleDeps ∧ m.iModulename ∉ moduleExcluded then
            DepState.mk st2.pfxRel (st2.moduleDeps ++ [v])
          else st2
        cmdGo env fuel ownPfx rest st3

/-- Source `check_module_deps` for one module (by index). -/
def check_module_deps (env : Nat → Option PModule) (fuel : Nat) (i : Nat)
    (st : DepState) : Option DepState :=
  match env i with
  | none => some st
  | some m => cmdGo env fuel m.iPfx m.iPfxes st

/-- The `emit` entry point's loop `for m in modules: check_module_deps`. -/
def checkAllDeps (env : Nat → Option PModule) (fuel : Nat) (mods : List Nat) :
    Option DepState :=
  mods.foldlM (fun st i => check_module_deps env fuel i st) (DepState.mk [] [])

/-- The `module_deps` component of a completed resolver run. -/
def depsOf (o : Option DepState) : Option (List Nat) :=
  o.map DepState.moduleDeps

/-! ## Typedef lookup (`lookup` / `lookup_typedef`) -/

/-- What the two-level `lookup` can produce: a registered statement (we
keep its `golang_name`), the raw key string (returned when the prefix is
not a key of the base map), or Python `None` (name absent under the
prefix). -/
inductive LookupRes where
  | found (golangName : String)
  | raw (k : String)
  | missing

/-- Python `pref, name = key.split(':')` guarded by `':' in key`: exactly
two parts or a `ValueError` (modeled `none`). -/
def lookupSplit (defaultPfx key : String) : Option (String × String) :=
  if key.data.contains ':' then
    match strSplitOnChar ':' key with
    | [p, n] => some (p, n)
    | _ => none
  else some (defaultPfx, key)

/-- Source `lookup` applied to `golang_typedef_map`
(`lookup_typedef`). -/
def lookup_typedef (tdMap : TypedefMap) (defaultPfx key : String) :
    Option LookupRes :=
  match lookupSplit defaultPfx key with
  | none => none
  | some (p, n) =>
    match lookA tdMap p with
    | some m =>
      match lookA m n with
      | some e => some (.found e.golangName)
      | none => some .missing
    | none => some (.raw key)

/-- Python `'%s' % x` where `x` may be `None`. -/
def optStr : Option String → String
  | some s => s
  | none => "None"

/-- Python `arg.split(':')[-1]`. -/
def lastColonPart (s : String) : String :=
  match (strSplitOnChar ':' s).getLast? with
  | some x => x
  | none => s

/-! ## Leaf type resolution (`emit_class_def`, scalar-leaf block) -/

/-- Outcome for one leaf field: dropped (`continue`), or a resolved type
name together with the comment lines printed while resolving it.  A
crash of the generator is the surrounding `Option`'s `none`. -/
inductive LeafRes where
  | dropped
  | ok (comments : List String) (typeName : String)
deriving DecidableEq, Repr

/-- Source `emit_class_def` lines 163-202: resolve a scalar leaf's
declared type.  The branch order is the source's `if`/`elif` chain:
identityref, leafref (with the `../config` drop), embedded enumeration,
semantic-translation table, builtin table, named-typedef lookup. -/
def resolveLeafType (tdMap : TypedefMap) (childPfx : Option String)
    (contName valNameGo : String) (tobj : TypeObj) : Option LeafRes :=
  if is_identityref tobj then
    match tobj.baseArg with
    | none => none
    | some b => some (.ok [] (convert_to_golang (lastColonPart b)))
  else if is_leafref tobj then
    match tobj.pathArg with
    | none => none
    | some path =>
      if strStartsWith path "../config" then some .dropped
      else
        match dig_leafref tobj with
        | none => none
        | some t =>
          if is_translation_required t then
            some (.ok ["// " ++ optStr childPfx ++ ":" ++ contName ++
                       "\x27s original type is " ++ t.arg ++ "."]
                      (translate_type t.arg))
          else if is_identityref t then
            match t.baseArg with
            | none => none
            | some b => some (.ok [] (convert_to_golang (lastColonPart b)))
          else
            match lookA builtinsTypeTranslationMap t.arg with
            | none => none
            | some bt => some (.ok [] bt)
  else if is_enum tobj then
    some (.ok [] valNameGo)
  else if is_translation_required tobj then
    some (.ok ["// " ++ optStr childPfx ++ ":" ++ contName ++
               "\x27s original type is " ++ tobj.arg ++ "."]
              (translate_type tobj.arg))
  else if is_builtin_type tobj then
    match lookA builtinsTypeTranslationMap tobj.arg with
    | none => none
    | some bt => some (.ok [] bt)
  else
    match lookup_typedef tdMap tobj.origPfx tobj.arg with
    | some (.found g) => some (.ok [] g)
    | _ => none

/-! ## Leaf-list type resolution (`emit_class_def`, leaf-list block) -/

/-- Source `emit_class_def` lines 219-241: resolve a leaf-list's
declared type.  The branch order is leafref (no `../config` check, the
target resolved through the builtin table only), identityref,
semantic-translation table, builtin table, named-typedef lookup; the
result is wrapped in `Vec<...>`. -/
def resolveLeafListType (tdMap : TypedefMap) (tobj : TypeObj) :
    Option (List String × String) :=
  if is_leafref tobj then
    match dig_leafref tobj with
    | none => none
    | some t =>
      match lookA builtinsTypeTranslationMap t.arg with
      | none => none
      | some bt => some ([], "Vec<" ++ bt ++ ">")
  else if is_identityref tobj then
    match tobj.baseArg with
    | none => none
    | some b => some ([], "Vec<" ++ convert_to_golang (lastColonPart b) ++ ">")
  else if is_translation_required tobj then
    some (["// original type is list of " ++ tobj.arg],
          "Vec<" ++ translate_type tobj.arg ++ ">")
  else if is_builtin_type tobj then
    match lookA builtinsTypeTranslationMap tobj.arg with
    | none => none
    | some bt => some ([], "Vec<" ++ bt ++ ">")
  else
    match lookup_typedef tdMap tobj.origPfx tobj.arg with
    | some (.found g) => some ([], "Vec<" ++ g ++ ">")
    | _ => none

/-- Source `emit_class_def` lines 211-217 around the leaf-list block:
the field's derived name gains a `List` suffix and its wire tag a
`-list` suffix before the type is resolved. -/
def resolveLeafList (tdMap : TypedefMap) (valNameGo tagName : String)
    (tobj : TypeObj) : Option (String × String × List String × String) :=
  match resolveLeafListType tdMap tobj with
  | none => none
  | some (comments, ty) =>
    some (valNameGo ++ "List", tagName ++ "-list", comments, ty)

/-! ## Emission of one struct (`emit_class_def`) -/

/-- Source `emit_description`: one print call (or nothing) on the given
stream. -/
def descLines (d : Option String) : List String :=
  match d with
  | none => []
  | some dd =>
    ["// " ++ charReplace '\n' "\n// " (if strEndsWith dd "." then dd else dd ++ ".")]

def emit_description_lines (s : SNode) : List String :=
  descLines s.descr

/-- The early-return guard of `emit_class_def`: a struct whose single
child is a list is not emitted. -/
def singleListChild (n : SNode) : Bool :=
  match n.children with
  | [c] => is_list c
  | _ => false

/-- Source `emit_class_def` lines 270-277: a container field whose
resolved struct name is `<StructName>...Config` / `...State` is renamed
to the canonical `config`/`state` tag. -/
def cfgStateAdjust (structUniq : String) (tagName valNameGo emitTy : String) :
    String × String :=
  let sg := convert_to_golang structUniq
  if strStartsWith emitTy sg ∧ strEndsWith emitTy "Config" then ("config", "Config")
  else if strStartsWith emitTy sg ∧ strEndsWith emitTy "State" then ("state", "State")
  else (tagName, valNameGo)

/-- Source `emit_class_def` lines 279-287: the field epilogue.  The
description and the `pub(crate) tag:Option<type>,` line go to the
supplied stream; the serde rename attribute is printed without
`file=fd`, i.e. to the process standard output.  A tag equal to the
reserved word `as` becomes the raw identifier `r#as`.  An unbound
`emit_type_name` (no branch assigned one) is a Python `NameError`,
modeled by `none`. -/
def fieldTail (child : SNode) (fd1 : List String) (tagName : String)
    (emitTy : Option String) : Option (List String × List String) :=
  match emitTy with
  | none => none
  | some ty =>
    let fd2 := fd1 ++ emit_description_lines child
    let stdR := if tagName.data.contains '-' then
        ["#[serde(rename = \"" ++ tagName ++ "\")]"]
      else []
    let tag2 := if tagName = "as" then "r#as" else tagName
    some (fd2 ++ ["pub(crate) " ++ charReplace '-' "_" tag2 ++ ":Option<" ++ ty ++ ">,"],
          stdR)

/-- Source `emit_class_def` lines 244-258: the shared branch for a
container child or a non-collapsed choice child.  Looks up the
registered struct; if that struct's only child is a list the struct is
elided into a `Vec` of the list's element type (the `equal_data`
computation can crash on a missing `key`, `leaf` or `type`/`path`
substatement, kept for fidelity).  A `None` child prefix crashes on the
string concatenation that builds the key. -/
def containerBranch (ctx : VCtx) (childPfx : Option String)
    (contName : String) : Option (String × String) :=
  match childPfx with
  | none => none
  | some cp =>
    match lookA ctx.reg.names (cp ++ ":" ++ contName) with
    | none => none
    | some t =>
      match t.node.children with
      | [c] =>
        if is_list c then
          match uniqNameOf (some t.uniqName) (get_orig_pfx c.iOrig) c with
          | none => none
          | some cUniq =>
            match c.keyArg with
            | none => none
            | some _kArg =>
              match c.children.find? (fun x => is_leaf x) with
              | none => none
              | some leafChild =>
                match leafChild.typ with
                | none => none
                | some leafT =>
                  if leafT.arg = "leafref" then
                    match leafT.pathArg with
                    | none => none
                    | some _pa =>
                      some (t.golangName, "Vec<" ++ convert_to_golang cUniq ++ ">")
                  else
                    some (t.golangName, "Vec<" ++ convert_to_golang cUniq ++ ">")
        else some (t.golangName, t.golangName)
      | _ => some (t.golangName, t.golangName)

/-- Source `emit_class_def` loop body (lines 149-287) for one child.
Returns the lines this child appends to the supplied stream and to the
process standard output; `none` is a generator crash.  Reads of the
`uniq_name` attribute set during visiting are recomputed via
`uniqNameOf`, and a choice child's `i_children` (flattened in place
during visiting) are recovered via `pickup_choice`. -/
def processChild (ctx : VCtx) (structUniq : String) (child : SNode) :
    Option (List String × List String) :=
  if child.path ∈ pathExclude then some ([], [])
  else
    let childPfx := get_orig_pfx child.iOrig
    match uniqNameOf (some structUniq) childPfx child with
    | none => none
    | some contName =>
      let valNameGo := convert_to_golang child.arg
      let tagName := pyLower contName
      let fd0 := ["// original -> " ++ optStr childPfx ++ ":" ++ contName]
      if is_leaf child then
        match child.typ with
        | none => none
        | some tobj =>
          match resolveLeafType ctx.tdMap childPfx contName valNameGo tobj with
          | none => none
          | some .dropped => some (fd0, [])
          | some (.ok comments ty) =>
            fieldTail child (fd0 ++ comments) tagName (some ty)
      else if is_case child then some (fd0, [])
      else if is_choice child then
        match is_enum_choice_list (pickup_choice child) with
        | none => none
        | some true => fieldTail child fd0 tagName (some valNameGo)
        | some false =>
          match containerBranch ctx childPfx contName with
          | none => none
          | some (_valGo, emitTy) => fieldTail child fd0 tagName (some emitTy)
      else if is_leaflist child then
        match child.typ with
        | none => none
        | some tobj =>
          match resolveLeafList ctx.tdMap valNameGo tagName tobj with
          | none => none
          | some (_val2, tag2, comments, ty) =>
            fieldTail child (fd0 ++ comments) tag2 (some ty)
      else if is_container child then
        match containerBranch ctx childPfx contName with
        | none => none
        | some (valGo, emitTy) =>
          let (tag2, _val3) := cfgStateAdjust structUniq tagName valGo emitTy
          fieldTail child fd0 tag2 (some emitTy)
      else if is_list child then
        match childPfx with
        | none => none
        | some cp =>
          match lookA ctx.reg.names (cp ++ ":" ++ contName) with
          | none => none
          | some t =>
            match child.keyArg with
            | none => none
            | some _k =>
              fieldTail child fd0 (tagName ++ "-list")
                (some ("Vec<" ++ t.golangName ++ ">"))
      else fieldTail child fd0 tagName none

/-- Source `emit_class_def`.  Returns (supplied-stream lines, standard
output lines).  The derive and `deny_unknown_fields` annotations are
printed without `file=fd` and so go to standard output, not to the
supplied stream. -/
def emit_class_def (ctx : VCtx) (ent : RegEntry) : Option (List String × List String) :=
  if singleListChild ent.node then some ([], [])
  else
    let fd0 := ["// struct for container " ++ ent.modulePfx ++ ":" ++ ent.node.arg ++ "."]
               ++ emit_description_lines ent.node
               ++ ["pub(crate) struct " ++ convert_to_golang ent.uniqName ++ " \x7b"]
    let std0 := ["#[derive(Deserialize, Debug, Default)]",
                 "#[serde(deny_unknown_fields)]"]
    match ent.node.children.foldlM
        (fun (acc : List String × List String) child =>
          match processChild ctx ent.uniqName child with
          | none => none
          | some (f, s) => some (acc.1 ++ f, acc.2 ++ s)) (fd0, std0) with
    | none => none
    | some (fdAll, stdAll) => some (fdAll ++ ["\x7d"], stdAll)

/-! ## Enumeration emission (`emit_enum`) and the generated constructor -/

/-- Source `emit_enum`: the emitted lines.  The enum body goes to the
supplied stream; the derive annotations and the whole generated
`TryFrom` implementation are printed without `file=fd` and so go to
standard output.  For a collapsed enum choice an extra `none` variant is
prepended to the substatement list. -/
def enumVariantNames (choiceFlag : Bool) (substmts : List String) : List String :=
  (if choiceFlag then "none" :: substmts else substmts).map convert_to_camelcase

def emit_enum_out (pfx nameOrg golangName : String) (choiceFlag : Bool)
    (dLines : List String) (substmts : List String) :
    List String × List String :=
  let subs := if choiceFlag then "none" :: substmts else substmts
  let fd := ["// typedef for identity " ++ pfx ++ ":" ++ nameOrg ++ "."]
            ++ dLines
            ++ ["pub(crate) enum " ++ golangName ++ " \x7b"]
            ++ (enumVariantNames choiceFlag substmts).map (fun v => v ++ ",")
            ++ ["\x7d\n"]
  let std := ["#[derive(Deserialize, Debug)]", "#[serde(try_from = \"String\")]",
              "impl TryFrom<String> for " ++ golangName ++ " \x7b",
              "type Error = String;",
              "fn try_from(s: String)->Result<Self, Self::Error> \x7b",
              "match s.as_str() \x7b"]
            ++ subs.map (fun a =>
                 "\"" ++ pyLower a ++ "\" => Ok(Self::" ++ convert_to_camelcase a ++ "),")
            ++ ["_ => Err(format!(\"invalid parameter (" ++ golangName ++
                ") \x7b\x7d\",s)),",
                "\x7d\n\x7d\n\x7d"]
  (fd, std)

/-- The semantics of the `TryFrom<String>` implementation `emit_enum`
generates: the scrutinee is matched, in order, against the lower-cased
declared values; the fallback arm produces the descriptive error.
`variants` is the same (possibly `none`-prepended) substatement list the
emitter used. -/
def genTryFrom (typeName : String) (variants : List String) (s : String) :
    Except String String :=
  match variants.find? (fun a => pyLower a = s) with
  | some a => Except.ok (convert_to_camelcase a)
  | none => Except.error ("invalid parameter (" ++ typeName ++ ") " ++ s)

/-! ## Typedef and identity emission (`emit_typedef` / `emit_identity`) -/

/-- Accumulated emission state: the `emitted_type_names` registry and the
three output streams (supplied stream, standard output, standard
error). -/
structure EmitAcc where
  emitted : List (String × String)
  fd : List String
  std : List String
  err : List String
deriving DecidableEq, Repr

/-- The `is_choice(stmt) and is_enum_choice(stmt)` test `emit_enum`
performs on its statement; evaluating `is_enum_choice` can crash. -/
def enumChoiceFlag (e : TDEntry) : Option Bool :=
  if e.kindIsChoice then
    match is_enum_choice_list e.flatChildren with
    | none => none
    | some b => some b
  else some false

/-- Source `emit_typedef` loop body for one `(name, stmt)` entry. -/
def emit_typedef_entry (tdMap : TypedefMap) (pfx : String) (acc : EmitAcc)
    (name : String) (e : TDEntry) : Option EmitAcc :=
  if e.path ∈ typedefExclude then some acc
  else if e.typ.map TypeObj.arg = some "identityref" then
    some acc
  else
    let typeName := e.golangName
    match lookA acc.emitted typeName with
    | some src =>
      some (EmitAcc.mk acc.emitted acc.fd acc.std
        (acc.err ++ ["warning " ++ pfx ++ ":" ++ name ++ ": " ++ name ++
                     " has already been emitted from " ++ src ++ "."]))
    | none =>
      let em2 := updA acc.emitted typeName (pfx ++ ":" ++ name)
      match e.typ with
      | none =>
        if e.kindIsChoice then
          match enumChoiceFlag e with
          | none => none
          | some flag =>
            let (f, s) := emit_enum_out pfx name e.golangName flag
              (descLines e.descr) (e.flatChildren.map SNode.arg)
            some (EmitAcc.mk em2 (acc.fd ++ f) (acc.std ++ s) acc.err)
        else none
      | some t =>
        if is_enum t then
          match enumChoiceFlag e with
          | none => none
          | some flag =>
            let (f, s) := emit_enum_out pfx name e.golangName flag
              (descLines e.descr) t.enumVals
            some (EmitAcc.mk em2 (acc.fd ++ f) (acc.std ++ s) acc.err)
        else if is_union t then
          some (EmitAcc.mk em2
            (acc.fd ++ ["// typedef for typedef " ++ pfx ++ ":" ++ name ++ "."]
              ++ descLines t.descr
              ++ ["type " ++ typeName ++ " = String;"]) acc.std acc.err)
        else
          let dug := if is_leafref t then dig_leafref t else some t
          match dug with
          | none => none
          | some t2 =>
            let fd1 := acc.fd ++ ["// typedef for typedef " ++ pfx ++ ":" ++ name ++ "."]
            if is_builtin_type t2 then
              match lookA builtinsTypeTranslationMap t2.arg with
              | none => none
              | some bt =>
                some (EmitAcc.mk em2
                  (fd1 ++ descLines t2.descr
                    ++ ["type " ++ typeName ++ " = " ++ bt ++ ";"]) acc.std acc.err)
            else if is_translation_required t2 then
              some (EmitAcc.mk em2
                (fd1 ++ ["// " ++ pfx ++ ":" ++ name ++ "\x27s original type is " ++
                         t2.arg ++ "."]
                  ++ descLines t2.descr
                  ++ ["type " ++ typeName ++ " = " ++ translate_type t2.arg ++ ";"])
                acc.std acc.err)
            else
              match strSplitOnChar ':' t2.arg with
              | [p2, n2] =>
                match lookA tdMap p2 with
                | none => none
                | some mm =>
                  match lookA mm n2 with
                  | none => none
                  | some e2 =>
                    some (EmitAcc.mk em2
                      (fd1 ++ descLines t2.descr
                        ++ ["type " ++ typeName ++ " = " ++ e2.golangName ++ ";"])
                      acc.std acc.err)
              | _ => none

/-- Source `emit_typedef` for one module: iterate that module's slice of
`golang_typedef_map` in insertion order. -/
def emit_typedef_mod (tdMap : TypedefMap) (pfx : String) (acc : EmitAcc) :
    Option EmitAcc :=
  match lookA tdMap pfx with
  | none => none
  | some m =>
    m.foldlM (fun a p => emit_typedef_entry tdMap pfx a p.1 p.2) acc

/-- An identity statement as `emit_identity` sees it: `descendants` are
the derived identities `visit_identity` appended to its substatements
(`stmt.search('identity')`). -/
structure IdEntry where
  arg : String
  golangName : String
  descr : Option String
  descendants : List String

abbrev IdMap := List (String × List (String × IdEntry))

/-- Source `emit_identity` for one module: every identity with recorded
derived identities is emitted as an enumeration.  No check against
`emitted_type_names` is performed here. -/
def emit_identity_mod (idMap : IdMap) (pfx : String) (acc : EmitAcc) :
    Option EmitAcc :=
  match lookA idMap pfx with
  | none => none
  | some m =>
    some (m.foldl (fun a p =>
      if p.2.descendants ≠ [] then
        let (f, s) := emit_enum_out pfx p.1 p.2.golangName false
          (descLines p.2.descr) p.2.descendants
        EmitAcc.mk a.emitted (a.fd ++ f) (a.std ++ s) a.err
      else a) acc)

/-! ## Top-level emission (`emit_go`) -/

/-- Source `_COPYRIGHT_NOTICE` (license header constant). -/
def copyrightNotice : String :=
  "\n// Copyright (C) 2021 The RustyBGP Authors.\n//\n" ++
  "// Licensed under the Apache License, Version 2.0 (the \"License\");\n" ++
  "// you may not use this file except in compliance with the License.\n" ++
  "// You may obtain a copy of the License at\n//\n" ++
  "//    http://www.apache.org/licenses/LICENSE-2.0\n//\n" ++
  "// Unless required by applicable law or agreed to in writing, software\n" ++
  "// distributed under the License is distributed on an \"AS IS\" BASIS,\n" ++
  "// WITHOUT WARRANTIES OR CONDITIONS OF ANY KIND, either express or\n" ++
  "// implied.\n" ++
  "// See the License for the specific language governing permissions and\n" ++
  "// limitations under the License.\n//\n" ++
  "// Code generated by pyang. DO NOT EDIT.\n"

/-- Source `generate_header`: the notice and a blank line go to the
supplied stream; the two `use` declarations are printed without
`file=fd` and go to standard output. -/
def generate_header_out : List String × List String :=
  ([copyrightNotice, ""], ["use serde::Deserialize;", "use std::convert::TryFrom;"])

/-- The fully populated context `emit_go` consumes: modules in
`module_deps` order (only their prefixes matter here), the registries,
and the struct registry. -/
structure GenCtx where
  moduleDeps : List String
  tdMap : TypedefMap
  idMap : IdMap
  reg : RegState

/-- Source `emit_go`, first half: emit the header, then every module's
typedefs and identities in `module_deps` order.  The guard
`if mod not in _module_excluded` compares a module object against a list
of strings and is therefore always true: no module is filtered at this
point (excluded modules never enter `module_deps` in the first place). -/
def modulesPhase (ctx : GenCtx) : Option EmitAcc :=
  let hdr := generate_header_out
  ctx.moduleDeps.foldlM (fun acc pfx =>
    match emit_typedef_mod ctx.tdMap pfx acc with
    | none => none
    | some a => emit_identity_mod ctx.idMap pfx a) (EmitAcc.mk [] hdr.1 hdr.2 [])

/-- Source `emit_go`, struct loop body: skip unique names already in
`done`, otherwise emit the struct and record its name. -/
def structStep (ctx : GenCtx) (p : EmitAcc × List String) (ent : RegEntry) :
    Option (EmitAcc × List String) :=
  if ent.uniqName ∈ p.2 then some p
  else
    match emit_class_def (VCtx.mk ctx.reg ctx.tdMap) ent with
    | none => none
    | some (f, s) =>
      some (EmitAcc.mk p.1.emitted (p.1.fd ++ f) (p.1.std ++ s) p.1.err,
            p.2 ++ [ent.uniqName])

/-- Source `emit_go`, second half: iterate the struct registry in
reverse discovery order (`ctx.golang_struct_def.reverse()`), with the
`done` set. -/
def structPhase (ctx : GenCtx) (acc : EmitAcc) : Option (EmitAcc × List String) :=
  (ctx.reg.defs.reverse).foldlM (structStep ctx) (acc, ([] : List String))

/-- Source `emit_go`: header, typedef/identity phase, then struct
phase. -/
def emit_go (ctx : GenCtx) : Option EmitAcc :=
  match modulesPhase ctx with
  | none => none
  | some acc1 =>
    match structPhase ctx acc1 with
    | none => none
    | some pF => some pF.1

/-- Specification of the `done`-set discipline: the unique names the
struct loop processes, in order, keeping only first occurrences. -/
def newNames : List RegEntry → List String → List String
  | [], _ => []
  | e :: rest, done =>
    if e.uniqName ∈ done then newNames rest done
    else e.uniqName :: newNames rest (done ++ [e.uniqName])

/-! ## Concrete schema fragments used to check the claims -/

def basePm : PyMod := PyMod.base "p"

def strType : TypeObj := TypeObj.mk "string" none none none [] none "p"

def emptyType : TypeObj := TypeObj.mk "empty" none none none [] none "p"

def u8Type : TypeObj := TypeObj.mk "uint8" none none none [] none "p"

/-- A leafref into a sibling `config` container, resolving to `uint8`. -/
def cfgLeafref : TypeObj :=
  TypeObj.mk "leafref" none (some "../config/x") (some u8Type) [] none "p"

/-- A declared type whose keyword is a key of both fixed tables. -/
def unionType : TypeObj := TypeObj.mk "union" none none none [] none "p"

/-- Two containers `a` and `b` each holding a same-named child container
`shared`; the second `shared` collides with the first in the struct
registry and is merged away, so struct `b` references the `Shared` type
that was first discovered under `a`. -/
def exLeafX : SNode := SNode.mk 3 .leaf "x" (some strType) none none basePm "/p:a/p:shared/p:x" []

def exLeafY : SNode := SNode.mk 12 .leaf "y" (some strType) none none basePm "/p:b/p:shared/p:y" []

def exShared1 : SNode := SNode.mk 2 .container "shared" none none none basePm "/p:a/p:shared" [exLeafX]

def exShared2 : SNode := SNode.mk 11 .container "shared" none none none basePm "/p:b/p:shared" [exLeafY]

def exNodeA : SNode := SNode.mk 1 .container "a" none none none basePm "/p:a" [exShared1]

def exNodeB : SNode := SNode.mk 10 .container "b" none none none basePm "/p:b" [exShared2]

def c3visit : Option VCtx :=
  visit_children "p" 100 none none (VCtx.mk (RegState.mk [] []) [("p", [])])
    [exNodeA, exNodeB]

def c3ctx : GenCtx :=
  match c3visit with
  | some v => GenCtx.mk ["p"] v.tdMap [("p", [])] v.reg
  | none => GenCtx.mk [] [] [] (RegState.mk [] [])

/-- A choice with one case `a` holding two presence leaves `x`, `y`. -/
def c7leafX : SNode := SNode.mk 30 .leaf "x" (some emptyType) none none basePm "/p:c/a/x" []

def c7leafY : SNode := SNode.mk 31 .leaf "y" (some emptyType) none none basePm "/p:c/a/y" []

def c7case : SNode := SNode.mk 21 .case "a" none none none basePm "/p:c/a" [c7leafX, c7leafY]

def c7choice : SNode := SNode.mk 20 .choice "route-type" none none none basePm "/p:c" [c7case]

def c7visit : Option VCtx :=
  visit_children "p" 100 none none (VCtx.mk (RegState.mk [] []) [("p", [])])
    [c7choice]

/-- Two modules, each declaring an identity `origin` with one derived
identity; both produce the enumeration name `Origin`. -/
def c6idm : IdMap :=
  [("p1", [("origin", IdEntry.mk "origin" "Origin" none ["a"])]),
   ("p2", [("origin", IdEntry.mk "origin" "Origin" none ["b"])])]

def c6ctx : GenCtx :=
  GenCtx.mk ["p1", "p2"] [("p1", []), ("p2", [])] c6idm (RegState.mk [] [])

/-- A struct with one hyphenated leaf, for the stream-split check. -/
def c9leaf : SNode :=
  SNode.mk 40 .leaf "local-address" (some strType) none none basePm "/p:peer/p:local-address" []

def c9node : SNode := SNode.mk 41 .container "peer" none none none basePm "/p:peer" [c9leaf]

def c9ent : RegEntry := RegEntry.mk c9node "peer" "Peer" "p"

/-- Module universe for the dependency-order check: module 0 (`a`) lists
its own prefix first and then its import of module 1 (`b`). -/
def c2envA : Nat → Option PModule
  | 0 => some (PModule.mk "a" "a-mod" [("a", 0), ("b", 1)])
  | 1 => some (PModule.mk "b" "b-mod" [("b", 1)])
  | _ => none

/-- Two unrelated modules, for the input-order dependence check. -/
def c2envB : Nat → Option PModule
  | 0 => some (PModule.mk "a" "a-mod" [("a", 0)])
  | 1 => some (PModule.mk "b" "b-mod" [("b", 1)])
  | _ => none

/-- Module universe for the amended dependency theorem's witness:
module 1 (`a`) imports module 0 (`b`) and lists its own prefix last. -/
def c2wenv : Nat → Option PModule
  | 0 => some (PModule.mk "b" "b-mod" [("b", 0)])
  | 1 => some (PModule.mk "a" "a-mod" [("b", 0), ("a", 1)])
  | _ => none

/-- Entries for the struct-merge checks: a pre-existing unrelated entry
and two candidates sharing the key `p:t`. -/
def c1other : RegEntry :=
  RegEntry.mk (SNode.mk 99 .container "z" none none none basePm "/p:z" []) "z" "Z" "p"

def c1st : RegState := RegState.mk [("p:z", c1other)] [c1other]

def c1e1 : RegEntry :=
  RegEntry.mk (SNode.mk 50 .container "t" none none none basePm "/p:t" [exLeafX, exLeafY])
    "t" "T" "p"

def c1e2 : RegEntry :=
  RegEntry.mk (SNode.mk 51 .container "t" none none none basePm "/q/p:t"
    [exLeafX, exLeafY, c7leafX]) "t" "T" "p"

def c1later : List (String × RegEntry) :=
  [("p:w", RegEntry.mk (SNode.mk 60 .container "w" none none none basePm "/p:w" []) "w" "W" "p")]

/-- Source `visit_children` lines 356-369 applied over a whole
registration sequence. -/
def registerAll (st : RegState) (regs : List (String × RegEntry)) : RegState :=
  regs.foldl (fun s kr => registerStruct s kr.1 kr.2) st

/-- The concrete output of the shared-child pipeline. -/
def c3out : EmitAcc :=
  match emit_go c3ctx with
  | some a => a
  | none => EmitAcc.mk [] [] [] []

/-- First character of a line `emit_class_def` prints to the supplied
stream: a comment (`/`), the struct or field line (`p`), or the closing
brace — never the `#` that opens an annotation. -/
def fdLineHead (l : String) : Prop :=
  l.data.head? = some '/' ∨ l.data.head? = some 'p' ∨
  l.data.head? = some '\x7d'

/-- The module-order invariant of the dependency resolver: every listed
module is preceded by every resolvable, non-excluded module its prefix
table references (its own index aside). -/
def TopoOrdered (env : Nat → Option PModule) (l : List Nat) : Prop :=
  ∀ n i, l.get? n = some i → ∀ m, env i = some m →
    ∀ kv ∈ m.iPfxes, kv.2 ≠ i →
      ∀ m2, env kv.2 = some m2 → m2.iModulename ∉ moduleExcluded →
        ∃ n' < n, l.get? n' = some kv.2

/-- No module on the fixed exclusion list ever enters the sequence. -/
def NoExcl (env : Nat → Option PModule) (l : List Nat) : Prop :=
  ∀ i ∈ l, ∀ m, env i = some m → m.iModulename ∉ moduleExcluded

/-- Acyclicity of the import graph, presented through a topological
indexing of the module universe: an entry resolving to a module with a
different prefix points strictly downward, and one resolving to the same
prefix is the module's own self entry (prefixes are unique). -/
def EnvAcyclic (env : Nat → Option PModule) : Prop :=
  ∀ i m, env i = some m → ∀ kv ∈ m.iPfxes, ∀ m2, env kv.2 = some m2 →
    (m2.iPfx ≠ m.iPfx → kv.2 < i) ∧ (m2.iPfx = m.iPfx → kv.2 = i)

/-- Every self entry of a module's prefix table is followed only by
further self entries (i.e. the imports all come first). -/
def SelfLast (env : Nat → Option PModule) : Prop :=
  ∀ i m, env i = some m → ∀ l1 kv l2, m.iPfxes = l1 ++ kv :: l2 →
    kv.2 = i → ∀ kv2 ∈ l2, kv2.2 = i

/-! # Auxiliary lemmas about the assoc-list and registry primitives -/

theorem lookA_updA_self {ν : Type} (m : List (String × ν)) (k : String) (v : ν) :
    lookA (updA m k v) k = some v := by
  induction m with
  | nil => simp [updA, lookA]
  | cons kv rest ih =>
    by_cases h : kv.1 = k
    · simp [updA, h, lookA]
    · simp [updA, h, lookA, ih]

theorem lookA_updA_ne {ν : Type} (m : List (String × ν)) (k k' : String) (v : ν)
    (h : k' ≠ k) : lookA (updA m k' v) k = lookA m k := by
  induction m with
  | nil => simp [updA, lookA, h]
  | cons kv rest ih =>
    by_cases hk : kv.1 = k'
    · simp [updA, hk, lookA, h]
    · simp [updA, hk, lookA, ih]

theorem mem_updA {ν : Type} (m : List (String × ν)) (k : String) (v : ν)
    (kv : String × ν) (h : kv ∈ updA m k v) : kv ∈ m ∨ kv = (k, v) := by
  induction m with
  | nil => simp [updA] at h; right; exact h
  | cons kv' rest ih =>
    by_cases hk : kv'.1 = k
    · simp only [updA, hk, if_pos rfl] at h
      rcases List.mem_cons.mp h with h1 | h1
      · right; exact h1
      · left; exact List.mem_cons_of_mem _ h1
    · simp only [updA, if_neg hk] at h
      rcases List.mem_cons.mp h with h1 | h1
      · left; exact h1 ▸ List.mem_cons_self _ _
      · rcases ih h1 with h2 | h2
        · left; exact List.mem_cons_of_mem _ h2
        · right; exact h2

theorem updA_fresh {ν : Type} (m : List (String × ν)) (k : String) (v : ν)
    (h : lookA m k = none) : updA m k v = m ++ [(k, v)] := by
  induction m with
  | nil => simp [updA]
  | cons kv rest ih =>
    by_cases hk : kv.1 = k
    · simp [lookA, hk] at h
    · simp only [lookA, if_neg hk] at h
      simp [updA, hk, ih h]

theorem regIndex_concat_self (l : List RegEntry) (a : RegEntry)
    (h : ∀ e ∈ l, e.node.nid ≠ a.node.nid) :
    regIndex (l ++ [a]) a.node.nid = l.length := by
  induction l with
  | nil => simp [regIndex]
  | cons e rest ih =>
    have he : e.node.nid ≠ a.node.nid := h e (List.mem_cons_self _ _)
    simp only [List.cons_append, regIndex, if_neg he, List.length_cons]
    exact congrArg (· + 1) (ih (fun x hx => h x (List.mem_cons_of_mem _ hx)))

theorem set_concat_length {α : Type} (l : List α) (a b : α) :
    (l ++ [a]).set l.length b = l ++ [b] := by
  induction l with
  | nil => simp
  | cons x rest ih => simp [List.set, ih]

theorem set_regIndex_preserve (l : List RegEntry) (n : Nat) (w : RegEntry) :
    ∀ (i : Nat) (v : RegEntry), l.get? i = some v → v.node.nid ≠ n →
      (l.set (regIndex l n) w).get? i = some v := by
  induction l with
  | nil => intro i v hv _; simp at hv
  | cons e rest ih =>
    intro i v hv hn
    by_cases he : e.node.nid = n
    · simp only [regIndex, if_pos he]
      match i with
      | 0 =>
        have hev : e = v := by simpa using hv
        exact absurd (hev ▸ he) hn
      | j + 1 => simpa using hv
    · simp only [regIndex, if_neg he]
      match i with
      | 0 => simpa using hv
      | j + 1 =>
        have hvj : rest.get? j = some v := by simpa using hv
        simpa using ih j v hvj hn

/-! # Claim C10: behavior of the origin-prefix computation -/

/-- C10: when a module's origin-module attribute is unset
`get_orig_prefix` returns that module's own prefix; when it is set, the
recursive call's result is discarded and the function returns `None`;
the visitor's per-node prefix computation receives that `None` for such
modules. -/
theorem c10_get_orig_pfx_returns_none :
    (∀ p : String, get_orig_pfx (PyMod.base p) = some p) ∧
    (∀ (p : String) (orig : PyMod), get_orig_pfx (PyMod.wrapped p orig) = none) ∧
    (∀ (parentOrig : Option PyMod) (c : SNode) (p : String) (orig : PyMod),
      is_case c = false → c.iOrig = PyMod.wrapped p orig →
      nodePfx parentOrig c = some none) := by
  refine ⟨fun p => rfl, fun p orig => rfl, fun po c p orig hc ho => ?_⟩
  simp [nodePfx, hc, ho, get_orig_pfx]

/-- Witness for C10 at a concrete node whose `i_orig_module` has an
origin module set. -/
theorem c10_witness :
    nodePfx none
      (SNode.mk 70 .container "sub" none none none (PyMod.wrapped "s" basePm) "/s" [])
      = some none :=
  c10_get_orig_pfx_returns_none.2.2 none
    (SNode.mk 70 .container "sub" none none none (PyMod.wrapped "s" basePm) "/s" [])
    "s" basePm (by decide) rfl

/-! # Claim C5: the generated enum constructor -/

/-- C5 counterexample: the constructor generated for a declared value
`FOO-BAR` rejects the inputs `FOO-BAR` and `Foo-Bar` (the match arms are
the lower-cased declared values and the scrutinee is not lowered), so
the parse is not case-insensitive; only the exact lower-case spelling is
accepted. -/
theorem c5_counterexample :
    genTryFrom "RouteType" ["FOO-BAR"] "FOO-BAR" =
      Except.error "invalid parameter (RouteType) FOO-BAR" ∧
    genTryFrom "RouteType" ["FOO-BAR"] "Foo-Bar" =
      Except.error "invalid parameter (RouteType) Foo-Bar" ∧
    genTryFrom "RouteType" ["FOO-BAR"] "foo-bar" = Except.ok "FooBar" := by
  refine ⟨?_, ?_, ?_⟩ <;> decide

/-- C5 amended: the generated constructor accepts exactly the
lower-cased spellings of the declared values (returning the matching
variant) and returns the descriptive error naming the offending input
for every other string. -/
theorem c5_accepts_exact_lowercase (typeName : String) (variants : List String)
    (s : String) :
    (s ∈ variants.map pyLower →
      ∃ a, a ∈ variants ∧ pyLower a = s ∧
        genTryFrom typeName variants s = Except.ok (convert_to_camelcase a)) ∧
    (s ∉ variants.map pyLower →
      genTryFrom typeName variants s =
        Except.error ("invalid parameter (" ++ typeName ++ ") " ++ s)) := by
  constructor
  · intro hs
    match hf : variants.find? (fun a => pyLower a = s) with
    | some a =>
      have hpa := List.find?_some hf
      simp only [decide_eq_true_eq] at hpa
      refine ⟨a, List.mem_of_find?_eq_some hf, hpa, ?_⟩
      simp [genTryFrom, hf]
    | none =>
      exfalso
      obtain ⟨a, ha, hpa⟩ := List.mem_map.mp hs
      have hnone := List.find?_eq_none.mp hf a ha
      simp [hpa] at hnone
  · intro hs
    match hf : variants.find? (fun a => pyLower a = s) with
    | some a =>
      exfalso
      have hpa := List.find?_some hf
      simp only [decide_eq_true_eq] at hpa
      exact hs (List.mem_map.mpr ⟨a, List.mem_of_find?_eq_some hf, hpa⟩)
    | none => simp [genTryFrom, hf]

/-- Witness for the amended C5 at a concrete declared value. -/
theorem c5_witness :
    ∃ a, a ∈ ["FOO-BAR"] ∧ pyLower a = "foo-bar" ∧
      genTryFrom "RouteType" ["FOO-BAR"] "foo-bar" =
        Except.ok (convert_to_camelcase a) :=
  (c5_accepts_exact_lowercase "RouteType" ["FOO-BAR"] "foo-bar").1 (by decide)

/-! # Claim C4: precedence of the scalar-leaf type resolver -/

/-- C4: for a scalar leaf's declared type the resolver applies exactly
the source precedence — identity reference, then leafref dereference,
then embedded enumeration, then the semantic-translation table, then the
builtin table, then named-typedef lookup — and for a type keyword that
is a key of both tables the semantic-translation table's result (with
its tell-tale comment line) is used. -/
theorem c4_leaf_type_precedence (tdMap : TypedefMap) (cp : Option String)
    (contName valNameGo : String) (tobj : TypeObj) :
    (is_identityref tobj = true →
      resolveLeafType tdMap cp contName valNameGo tobj =
        match tobj.baseArg with
        | none => none
        | some b => some (.ok [] (convert_to_golang (lastColonPart b)))) ∧
    (is_identityref tobj = false → is_leafref tobj = true →
      resolveLeafType tdMap cp contName valNameGo tobj =
        match tobj.pathArg with
        | none => none
        | some path =>
          if strStartsWith path "../config" then some .dropped
          else
            match dig_leafref tobj with
            | none => none
            | some t =>
              if is_translation_required t then
                some (.ok ["// " ++ optStr cp ++ ":" ++ contName ++
                           "\x27s original type is " ++ t.arg ++ "."]
                          (translate_type t.arg))
              else if is_identityref t then
                match t.baseArg with
                | none => none
                | some b => some (.ok [] (convert_to_golang (lastColonPart b)))
              else
                match lookA builtinsTypeTranslationMap t.arg with
                | none => none
                | some bt => some (.ok [] bt)) ∧
    (is_identityref tobj = false → is_leafref tobj = false → is_enum tobj = true →
      resolveLeafType tdMap cp contName valNameGo tobj = some (.ok [] valNameGo)) ∧
    (is_identityref tobj = false → is_leafref tobj = false → is_enum tobj = false →
      is_translation_required tobj = true →
      resolveLeafType tdMap cp contName valNameGo tobj =
        some (.ok ["// " ++ optStr cp ++ ":" ++ contName ++
                   "\x27s original type is " ++ tobj.arg ++ "."]
                  (translate_type tobj.arg))) ∧
    (is_identityref tobj = false → is_leafref tobj = false → is_enum tobj = false →
      is_translation_required tobj = false → is_builtin_type tobj = true →
      resolveLeafType tdMap cp contName valNameGo tobj =
        match lookA builtinsTypeTranslationMap tobj.arg with
        | none => none
        | some bt => some (.ok [] bt)) ∧
    (is_identityref tobj = false → is_leafref tobj = false → is_enum tobj = false →
      is_translation_required tobj = false → is_builtin_type tobj = false →
      resolveLeafType tdMap cp contName valNameGo tobj =
        match lookup_typedef tdMap tobj.origPfx tobj.arg with
        | some (.found g) => some (.ok [] g)
        | _ => none) ∧
    (tobj.arg ∈ typeTranslationMap.map Prod.fst → tobj.arg ∈ typeBuiltin →
      resolveLeafType tdMap cp contName valNameGo tobj =
        some (.ok ["// " ++ optStr cp ++ ":" ++ contName ++
                   "\x27s original type is " ++ tobj.arg ++ "."]
                  (translate_type tobj.arg))) := by
  refine ⟨?_, ?_, ?_, ?_, ?_, ?_, ?_⟩
  · intro h1; simp [resolveLeafType, h1]
  · intro h1 h2; simp [resolveLeafType, h1, h2]
  · intro h1 h2 h3; simp [resolveLeafType, h1, h2, h3]
  · intro h1 h2 h3 h4; simp [resolveLeafType, h1, h2, h3, h4]
  · intro h1 h2 h3 h4 h5; simp [resolveLeafType, h1, h2, h3, h4, h5]
  · intro h1 h2 h3 h4 h5; simp [resolveLeafType, h1, h2, h3, h4, h5]
  · intro hk1 hk2
    have hk1' : tobj.arg = "union" ∨ tobj.arg = "decimal64" ∨ tobj.arg = "boolean" ∨
        tobj.arg = "empty" ∨ tobj.arg = "inet:ip-address" ∨ tobj.arg = "inet:ip-prefix" ∨
        tobj.arg = "inet:ipv4-address" ∨ tobj.arg = "inet:as-number" ∨
        tobj.arg = "bgp-set-community-option-type" ∨ tobj.arg = "inet:port-number" ∨
        tobj.arg = "yang:timeticks" ∨ tobj.arg = "ptypes:install-protocol-type" ∨
        tobj.arg = "binary" ∨ tobj.arg = "route-family" ∨ tobj.arg = "bgp-capability" ∨
        tobj.arg = "bgp-open-message" := by
      simpa [typeTranslationMap] using hk1
    have harg : tobj.arg = "union" := by
      rcases hk1' with h|h|h|h|h|h|h|h|h|h|h|h|h|h|h|h
      · exact h
      all_goals (rw [h] at hk2; exact absurd hk2 (by decide))
    simp [resolveLeafType, is_identityref, is_leafref, is_enum,
      is_translation_required, is_builtin_type, harg, typeTranslationMap,
      translate_type, lookA]

/-- Witness for C4 at the keyword `union`, a key of both tables. -/
theorem c4_witness :
    ("union" ∈ typeTranslationMap.map Prod.fst) ∧ ("union" ∈ typeBuiltin) ∧
    resolveLeafType [] (some "p") "n" "N" unionType =
      some (.ok ["// p:n\x27s original type is union."] "String") :=
  ⟨by decide, by decide, by
    have h := (c4_leaf_type_precedence [] (some "p") "n" "N" unionType).2.2.2.2.2.2
      (by decide) (by decide)
    exact h.trans (by decide)⟩

/-! # Claim C8: the leaf-list resolver -/

/-- C8 counterexample: a leaf-list whose declared type is a leafref with
path `../config/x` is not dropped (the leaf-list block performs no
`../config` check), although the identical declared type on a scalar
leaf is dropped; the leaf-list resolver therefore does not apply the
same precedence as the scalar-leaf resolver. -/
theorem c8_counterexample :
    resolveLeafType [] (some "p") "n" "N" cfgLeafref = some .dropped ∧
    resolveLeafList [] "N" "n" cfgLeafref =
      some ("NList", "n-list", [], "Vec<u8>") := by
  constructor <;> decide

/-- C8 amended: a leaf-list's declared type is resolved with the
leaf-list block's own precedence — leafref first (no `../config` drop,
the dereferenced target looked up in the builtin table only), then
identityref, then the semantic-translation table, then the builtin
table, then named-typedef lookup — the result is wrapped in `Vec<...>`,
and the field's wire tag gains a `-list` suffix and its derived name a
`List` suffix. -/
theorem c8_leaflist_resolution (tdMap : TypedefMap) (valNameGo tagName : String)
    (tobj : TypeObj) :
    (∀ res, resolveLeafList tdMap valNameGo tagName tobj = some res →
      res.1 = valNameGo ++ "List" ∧ res.2.1 = tagName ++ "-list") ∧
    (is_leafref tobj = true →
      resolveLeafListType tdMap tobj =
        match dig_leafref tobj with
        | none => none
        | some t =>
          match lookA builtinsTypeTranslationMap t.arg with
          | none => none
          | some bt => some ([], "Vec<" ++ bt ++ ">")) ∧
    (is_leafref tobj = false → is_identityref tobj = true →
      resolveLeafListType tdMap tobj =
        match tobj.baseArg with
        | none => none
        | some b => some ([], "Vec<" ++ convert_to_golang (lastColonPart b) ++ ">")) ∧
    (is_leafref tobj = false → is_identityref tobj = false →
      is_translation_required tobj = true →
      resolveLeafListType tdMap tobj =
        some (["// original type is list of " ++ tobj.arg],
              "Vec<" ++ translate_type tobj.arg ++ ">")) ∧
    (is_leafref tobj = false → is_identityref tobj = false →
      is_translation_required tobj = false → is_builtin_type tobj = true →
      resolveLeafListType tdMap tobj =
        match lookA builtinsTypeTranslationMap tobj.arg with
        | none => none
        | some bt => some ([], "Vec<" ++ bt ++ ">")) ∧
    (is_leafref tobj = false → is_identityref tobj = false →
      is_translation_required tobj = false → is_builtin_type tobj = false →
      resolveLeafListType tdMap tobj =
        match lookup_typedef tdMap tobj.origPfx tobj.arg with
        | some (.found g) => some ([], "Vec<" ++ g ++ ">")
        | _ => none) := by
  refine ⟨?_, ?_, ?_, ?_, ?_, ?_⟩
  · intro res hres
    unfold resolveLeafList at hres
    match hll : resolveLeafListType tdMap tobj with
    | none => rw [hll] at hres; exact absurd hres (by simp)
    | some pair =>
      rw [hll] at hres
      have := Option.some_inj.mp hres
      constructor
      · rw [← this]
      · rw [← this]
  · intro h1; simp [resolveLeafListType, h1]
  · intro h1 h2; simp [resolveLeafListType, h1, h2]
  · intro h1 h2 h3; simp [resolveLeafListType, h1, h2, h3]
  · intro h1 h2 h3 h4; simp [resolveLeafListType, h1, h2, h3, h4]
  · intro h1 h2 h3 h4; simp [resolveLeafListType, h1, h2, h3, h4]

/-- Witness for the amended C8 at the concrete config-path leafref. -/
theorem c8_witness :
    resolveLeafList [] "N" "n" cfgLeafref =
      some ("NList", "n-list", [], "Vec<u8>") ∧
    ("NList", "n-list", ([] : List String), "Vec<u8>").1 = "N" ++ "List" := by
  refine ⟨by decide, ?_⟩
  have h := (c8_leaflist_resolution [] "N" "n" cfgLeafref).1
    ("NList", "n-list", [], "Vec<u8>") (by decide)
  exact h.1.trans (by decide)

/-! # Claim C1: merge-on-collision in the struct registry -/

theorem lookA_mem {ν : Type} (m : List (String × ν)) (k : String) (v : ν)
    (h : lookA m k = some v) : (k, v) ∈ m := by
  induction m with
  | nil => simp [lookA] at h
  | cons kv rest ih =>
    obtain ⟨k1, v1⟩ := kv
    by_cases hk : k1 = k
    · simp only [lookA, if_pos hk] at h
      subst hk
      rw [Option.some_inj.mp h]
      exact List.mem_cons_self _ _
    · simp only [lookA, if_neg hk] at h
      exact List.mem_cons_of_mem _ (ih h)

/-- Registrations under other keys by nodes with other identities leave
a registered winner and its position in the emission-order list
untouched. -/
theorem registerAll_frame (key : String) (w : RegEntry) (i : Nat) :
    ∀ (later : List (String × RegEntry)) (s : RegState),
      lookA s.names key = some w →
      s.defs.get? i = some w →
      (∀ kv ∈ s.names, kv.1 ≠ key → kv.2.node.nid ≠ w.node.nid) →
      (∀ kr ∈ later, kr.1 ≠ key ∧ kr.2.node.nid ≠ w.node.nid) →
      lookA (registerAll s later).names key = some w ∧
      (registerAll s later).defs.get? i = some w := by
  intro later
  induction later with
  | nil => intro s h1 h2 _ _; exact ⟨h1, h2⟩
  | cons kr rest ih =>
    intro s h1 h2 hinv hlat
    obtain ⟨hk, hn⟩ := hlat kr (List.mem_cons_self _ _)
    have hlat' : ∀ kr' ∈ rest, kr'.1 ≠ key ∧ kr'.2.node.nid ≠ w.node.nid :=
      fun kr' hm => hlat kr' (List.mem_cons_of_mem _ hm)
    have hstep : lookA (registerStruct s kr.1 kr.2).names key = some w ∧
        (registerStruct s kr.1 kr.2).defs.get? i = some w ∧
        (∀ kv ∈ (registerStruct s kr.1 kr.2).names, kv.1 ≠ key →
          kv.2.node.nid ≠ w.node.nid) := by
      match hlook : lookA s.names kr.1 with
      | some extC =>
        have hext : extC.node.nid ≠ w.node.nid :=
          hinv (kr.1, extC) (lookA_mem _ _ _ hlook) hk
        by_cases hlt : extC.node.children.length < kr.2.node.children.length
        · have hreg : registerStruct s kr.1 kr.2 =
              RegState.mk (updA s.names kr.1 kr.2)
                (s.defs.set (regIndex s.defs extC.node.nid) kr.2) := by
            simp [registerStruct, hlook, hlt]
          rw [hreg]
          refine ⟨?_, ?_, ?_⟩
          · rw [lookA_updA_ne _ _ _ _ hk]; exact h1
          · exact set_regIndex_preserve s.defs extC.node.nid kr.2 i w h2
              (fun hcon => hext hcon.symm)
          · intro kv hkv hkvne
            rcases mem_updA _ _ _ _ hkv with hm | hm
            · exact hinv kv hm hkvne
            · rw [hm]; exact hn
        · have hreg : registerStruct s kr.1 kr.2 = s := by
            simp [registerStruct, hlook, hlt]
          rw [hreg]; exact ⟨h1, h2, hinv⟩
      | none =>
        have hreg : registerStruct s kr.1 kr.2 =
            RegState.mk (updA s.names kr.1 kr.2) (s.defs ++ [kr.2]) := by
          simp [registerStruct, hlook]
        rw [hreg]
        refine ⟨?_, ?_, ?_⟩
        · rw [lookA_updA_ne _ _ _ _ hk]; exact h1
        · have hi : i < s.defs.length := by
            rcases List.get?_eq_some.mp h2 with ⟨hlt, _⟩
            exact hlt
          rw [List.get?_append hi]; exact h2
        · intro kv hkv hkvne
          rcases mem_updA _ _ _ _ hkv with hm | hm
          · exact hinv kv hm hkvne
          · rw [hm]; exact hn
    have := ih (registerStruct s kr.1 kr.2) hstep.1 hstep.2.1 hstep.2.2 hlat'
    simpa [registerAll] using this

/-- C1: when two struct candidates are registered under the same
(origin-prefix, unique-name) key — and any other registrations use other
keys and other node objects — the registry ends up mapping the key to
the candidate with strictly more children, the winner sitting at the
position in the emission-order list that the first-discovered candidate
occupied; when the later candidate does not have strictly more children
the first candidate and its position are kept unchanged. -/
theorem c1_merge_on_collision (st : RegState) (key : String) (e1 e2 : RegEntry)
    (later : List (String × RegEntry))
    (hfresh : lookA st.names key = none)
    (hnids : ∀ e ∈ st.defs, e.node.nid ≠ e1.node.nid)
    (hnames : ∀ kv ∈ st.names,
      kv.2.node.nid ≠ e1.node.nid ∧ kv.2.node.nid ≠ e2.node.nid)
    (hlater : ∀ kr ∈ later,
      kr.1 ≠ key ∧ kr.2.node.nid ≠ e1.node.nid ∧ kr.2.node.nid ≠ e2.node.nid) :
    (e1.node.children.length < e2.node.children.length →
      lookA (registerAll (registerStruct (registerStruct st key e1) key e2)
        later).names key = some e2 ∧
      (registerAll (registerStruct (registerStruct st key e1) key e2)
        later).defs.get? st.defs.length = some e2) ∧
    (¬ e1.node.children.length < e2.node.children.length →
      lookA (registerAll (registerStruct (registerStruct st key e1) key e2)
        later).names key = some e1 ∧
      (registerAll (registerStruct (registerStruct st key e1) key e2)
        later).defs.get? st.defs.length = some e1) := by
  have hst1 : registerStruct st key e1 =
      RegState.mk (updA st.names key e1) (st.defs ++ [e1]) := by
    simp [registerStruct, hfresh]
  have hlook1 : lookA (updA st.names key e1) key = some e1 := lookA_updA_self _ _ _
  constructor
  · intro hlt
    have hst2 : registerStruct (registerStruct st key e1) key e2 =
        RegState.mk (updA (updA st.names key e1) key e2) (st.defs ++ [e2]) := by
      rw [hst1]
      simp only [registerStruct, hlook1, hlt, if_pos]
      rw [regIndex_concat_self st.defs e1 hnids, set_concat_length]
    rw [hst2]
    refine registerAll_frame key e2 st.defs.length later _ ?_ ?_ ?_ ?_
    · exact lookA_updA_self _ _ _
    · exact List.get?_concat_length _ _
    · intro kv hkv hkvne
      rcases mem_updA _ _ _ _ hkv with hm | hm
      · rcases mem_updA _ _ _ _ hm with hm2 | hm2
        · exact (hnames kv hm2).2
        · exact absurd (by rw [hm2]) hkvne
      · exact absurd (by rw [hm]) hkvne
    · exact fun kr hm => ⟨(hlater kr hm).1, (hlater kr hm).2.2⟩
  · intro hge
    have hst2 : registerStruct (registerStruct st key e1) key e2 =
        RegState.mk (updA st.names key e1) (st.defs ++ [e1]) := by
      rw [hst1]
      simp [registerStruct, hlook1, hge]
    rw [hst2]
    refine registerAll_frame key e1 st.defs.length later _ ?_ ?_ ?_ ?_
    · exact lookA_updA_self _ _ _
    · exact List.get?_concat_length _ _
    · intro kv hkv hkvne
      rcases mem_updA _ _ _ _ hkv with hm | hm
      · exact (hnames kv hm).1
      · exact absurd (by rw [hm]) hkvne
    · exact fun kr hm => ⟨(hlater kr hm).1, (hlater kr hm).2.1⟩

/-- Witness for C1: a concrete collision in which the later candidate
has three children against two; it wins and sits at the first
candidate's position (index 1, after the unrelated entry). -/
theorem c1_witness :
    lookA (registerAll (registerStruct (registerStruct c1st "p:t" c1e1) "p:t" c1e2)
      c1later).names "p:t" = some c1e2 ∧
    (registerAll (registerStruct (registerStruct c1st "p:t" c1e1) "p:t" c1e2)
      c1later).defs.get? 1 = some c1e2 :=
  (c1_merge_on_collision c1st "p:t" c1e1 c1e2 c1later rfl
    (by decide) (by decide) (by decide)).1 (by decide)

/-! # Claim C7: choice flattening and collapse -/

/-- C7 counterexample: a choice with a single case `a` holding two
presence leaves `x` and `y` collapses to the three variants
`None, X, Y` — one per flattened case-child leaf, named after the leaf —
not to one variant per case name as the claim predicts (which would be
`None, A`); the pipeline check confirms no struct is registered and the
choice lands in the typedef registry. -/
theorem c7_counterexample :
    enumVariantNames true ((pickup_choice c7choice).map SNode.arg) =
      ["None", "X", "Y"] ∧
    c7choice.children.map SNode.arg = ["a"] ∧
    enumVariantNames true ((pickup_choice c7choice).map SNode.arg) ≠
      "None" :: (c7choice.children.map (fun x => convert_to_camelcase x.arg)) ∧
    (c7visit.map (fun v => (v.reg.defs.length, v.tdMap.map Prod.fst))
      = some (0, ["p"])) := by
  refine ⟨by decide, by decide, by decide, by decide⟩

/-- C7 amended: after a choice's cases are flattened away, if every
resulting child's declared type is the presence marker the choice is
stored in the typedef registry (struct registry untouched, recursion
skipped) and its enumeration gets one variant per flattened case-child
leaf plus a prepended `none` variant; otherwise the choice is registered
as a struct whose children are the flattened case children. -/
theorem c7_choice_registration (modPfx : String) (fuel : Nat) (po : Option PyMod)
    (pu : Option String) (ctx : VCtx) (c : SNode) (rest : List SNode)
    (pfx : Option String) (uniq : String)
    (hkind : c.kind = YKind.choice)
    (hpfx : nodePfx po c = some pfx)
    (huniq : uniqNameOf pu pfx c = some uniq) :
    (is_enum_choice_list (pickup_choice c) = some true →
      visit_children modPfx (fuel + 1) po pu ctx (c :: rest) =
        visit_children modPfx fuel po pu
          (VCtx.mk ctx.reg (define_enum_upd ctx.tdMap modPfx
            (tdEntryOf (c.withChildren (pickup_choice c))))) rest) ∧
    (is_enum_choice_list (pickup_choice c) = some false → ∀ p, pfx = some p →
      visit_children modPfx (fuel + 1) po pu ctx (c :: rest) =
        match visit_children modPfx fuel none none
            (VCtx.mk (registerStruct ctx.reg (p ++ ":" ++ uniq)
              (RegEntry.mk (c.withChildren (pickup_choice c)) uniq
                (convert_to_golang uniq) p)) ctx.tdMap)
            (pickup_choice c) with
        | none => none
        | some ctx2 => visit_children modPfx fuel po pu ctx2 rest) ∧
    (∀ substmts : List String,
      enumVariantNames true substmts =
        "None" :: substmts.map convert_to_camelcase) := by
  have hleaf : is_leaf c = false := by simp [is_leaf, hkind]
  have hlist : is_list c = false := by simp [is_list, hkind]
  have hcont : is_container c = false := by simp [is_container, hkind]
  have hchoice : is_choice c = true := by simp [is_choice, hkind]
  refine ⟨?_, ?_, ?_⟩
  · intro hec
    unfold pickup_choice at hec
    simp [visit_children, hpfx, huniq, hleaf, hlist, hcont, hchoice, hec,
      pickup_choice]
  · intro hec p hp
    subst hp
    unfold pickup_choice at hec
    simp [visit_children, hpfx, huniq, hleaf, hlist, hcont, hchoice, hec,
      pickup_choice]
  · intro subs
    show ("none" :: subs).map convert_to_camelcase =
      "None" :: subs.map convert_to_camelcase
    rw [List.map_cons, show convert_to_camelcase "none" = "None" from by decide]

/-- Witness for the amended C7: the concrete collapsing choice takes the
typedef-registration step. -/
theorem c7_witness :
    visit_children "p" 100 none none (VCtx.mk (RegState.mk [] []) [("p", [])])
      [c7choice] =
    visit_children "p" 99 none none
      (VCtx.mk (RegState.mk [] [])
        (define_enum_upd [("p", [])] "p"
          (tdEntryOf (c7choice.withChildren (pickup_choice c7choice))))) [] :=
  (c7_choice_registration "p" 99 none none
    (VCtx.mk (RegState.mk [] []) [("p", [])]) c7choice [] (some "p") "route-type"
    (by decide) (by decide) (by decide)).1 (by decide)

/-! # Shared fold lemmas for the emission phases -/

theorem foldlM_preserve {β γ : Type} (P : β → Prop) (f : β → γ → Option β)
    (hf : ∀ b x b', f b x = some b' → P b → P b') :
    ∀ (l : List γ) (b b' : β), List.foldlM f b l = some b' → P b → P b' := by
  intro l
  induction l with
  | nil =>
    intro b b' h hb
    rwa [← Option.some_inj.mp h]
  | cons x rest ih =>
    intro b b' h hb
    have hcons : List.foldlM f b (x :: rest) =
        (f b x >>= fun b1 => List.foldlM f b1 rest) := rfl
    rw [hcons] at h
    match hx : f b x with
    | none => rw [hx] at h; exact Option.noConfusion h
    | some b1 =>
      rw [hx] at h
      exact ih b1 b' h (hf b x b1 hx hb)

theorem lookA_none_not_mem {ν : Type} (m : List (String × ν)) (k : String)
    (h : lookA m k = none) : k ∉ m.map Prod.fst := by
  induction m with
  | nil => simp
  | cons kv rest ih =>
    by_cases hk : kv.1 = k
    · simp [lookA, hk] at h
    · simp only [lookA, if_neg hk] at h
      simp only [List.map_cons, List.mem_cons]
      rintro (h1 | h1)
      · exact hk h1.symm
      · exact ih h h1

/-- The unique names the struct loop records: the `done` list equals the
spec function `newNames` on the processed entries, and the loop only
appends to the supplied stream. -/
theorem structFold_done (ctx : GenCtx) :
    ∀ (l : List RegEntry) (acc : EmitAcc) (done : List String)
      (accF : EmitAcc) (doneF : List String),
      List.foldlM (structStep ctx) (acc, done) l = some (accF, doneF) →
      doneF = done ++ newNames l done ∧ (∃ t, accF.fd = acc.fd ++ t) := by
  intro l
  induction l with
  | nil =>
    intro acc done accF doneF h
    have hp : (acc, done) = (accF, doneF) := Option.some_inj.mp h
    have h1 : acc = accF := congrArg Prod.fst hp
    have h2 : done = doneF := congrArg Prod.snd hp
    exact ⟨by rw [← h2]; simp [newNames], ⟨[], by rw [← h1]; simp⟩⟩
  | cons e rest ih =>
    intro acc done accF doneF h
    have hcons : List.foldlM (structStep ctx) (acc, done) (e :: rest) =
        (structStep ctx (acc, done) e >>= fun p => List.foldlM (structStep ctx) p rest) := rfl
    rw [hcons] at h
    by_cases hm : e.uniqName ∈ done
    · have hstep : structStep ctx (acc, done) e = some (acc, done) := by
        simp [structStep, hm]
      rw [hstep] at h
      obtain ⟨h1, h2⟩ := ih acc done accF doneF h
      exact ⟨by rw [h1]; simp [newNames, hm], h2⟩
    · match hcd : emit_class_def (VCtx.mk ctx.reg ctx.tdMap) e with
      | none =>
        have hstep : structStep ctx (acc, done) e = none := by
          simp [structStep, hm, hcd]
        rw [hstep] at h
        exact Option.noConfusion h
      | some fs =>
        have hstep : structStep ctx (acc, done) e =
            some (EmitAcc.mk acc.emitted (acc.fd ++ fs.1) (acc.std ++ fs.2) acc.err,
                  done ++ [e.uniqName]) := by
          simp [structStep, hm, hcd]
        rw [hstep] at h
        obtain ⟨h1, h2⟩ := ih _ _ accF doneF h
        constructor
        · rw [h1]
          simp [newNames, hm]
        · obtain ⟨t, ht⟩ := h2
          exact ⟨fs.1 ++ t, by simp [ht]⟩

theorem newNames_not_mem_done :
    ∀ (l : List RegEntry) (done : List String) (x : String),
      x ∈ newNames l done → x ∉ done := by
  intro l
  induction l with
  | nil => intro done x hx; simp [newNames] at hx
  | cons e rest ih =>
    intro done x hx
    by_cases hm : e.uniqName ∈ done
    · simp only [newNames, if_pos hm] at hx
      exact ih done x hx
    · simp only [newNames, if_neg hm] at hx
      rcases List.mem_cons.mp hx with h1 | h1
      · rw [h1]; exact hm
      · intro hd
        exact ih (done ++ [e.uniqName]) x h1 (List.mem_append_left _ hd)

theorem newNames_nodup :
    ∀ (l : List RegEntry) (done : List String), (newNames l done).Nodup := by
  intro l
  induction l with
  | nil => intro done; simp [newNames]
  | cons e rest ih =>
    intro done
    by_cases hm : e.uniqName ∈ done
    · simp only [newNames, if_pos hm]; exact ih done
    · simp only [newNames, if_neg hm]
      refine List.nodup_cons.mpr ⟨?_, ih _⟩
      intro hmem
      exact newNames_not_mem_done rest (done ++ [e.uniqName]) e.uniqName hmem
        (List.mem_append_right _ (List.mem_singleton.mpr rfl))

/-! # Claim C6: uniqueness of emitted type names -/

/-- C6 counterexample: two modules each declaring an identity `origin`
(with a derived identity) make `emit_go` print two enumerations named
`Origin` to the supplied stream, with no diagnostic on the error stream:
identity emission never consults `emitted_type_names`. -/
theorem c6_counterexample :
    ((emit_go c6ctx).map (fun a =>
      (a.fd.count "pub(crate) enum Origin \x7b", a.err.length))) = some (2, 0) := by
  decide

/-- Which updates `emit_typedef_entry` can make to the emitted-name
registry: none at all, or the recording of a name it just checked to be
fresh. -/
theorem emit_typedef_entry_emitted (tdMap : TypedefMap) (pfx : String)
    (acc : EmitAcc) (name : String) (e : TDEntry) (acc' : EmitAcc)
    (h : emit_typedef_entry tdMap pfx acc name e = some acc') :
    acc'.emitted = acc.emitted ∨
    (lookA acc.emitted e.golangName = none ∧
      acc'.emitted = updA acc.emitted e.golangName (pfx ++ ":" ++ name)) := by
  unfold emit_typedef_entry at h
  by_cases h1 : e.path ∈ typedefExclude
  · rw [if_pos h1] at h
    left; rw [← Option.some_inj.mp h]
  · rw [if_neg h1] at h
    by_cases h2 : e.typ.map TypeObj.arg = some "identityref"
    · rw [if_pos h2] at h
      left; rw [← Option.some_inj.mp h]
    · rw [if_neg h2] at h
      match hl : lookA acc.emitted e.golangName with
      | some src =>
        simp only [hl] at h
        left; rw [← Option.some_inj.mp h]
      | none =>
        simp only [hl] at h
        right
        refine ⟨rfl, ?_⟩
        repeat' split at h
        all_goals
          first
          | exact Option.noConfusion h
          | rw [← Option.some_inj.mp h]

/-- `emit_identity` never touches the emitted-name registry. -/
theorem emit_identity_mod_emitted (idMap : IdMap) (pfx : String)
    (acc acc' : EmitAcc) (h : emit_identity_mod idMap pfx acc = some acc') :
    acc'.emitted = acc.emitted := by
  unfold emit_identity_mod at h
  match hl : lookA idMap pfx with
  | none => rw [hl] at h; exact Option.noConfusion h
  | some m =>
    rw [hl] at h
    have hfold : ∀ (l : List (String × IdEntry)) (a : EmitAcc),
        (List.foldl (fun (a : EmitAcc) (p : String × IdEntry) =>
          if p.2.descendants ≠ [] then
            let fs := emit_enum_out pfx p.1 p.2.golangName false
              (descLines p.2.descr) p.2.descendants
            EmitAcc.mk a.emitted (a.fd ++ fs.1) (a.std ++ fs.2) a.err
          else a) a l).emitted = a.emitted := by
      intro l
      induction l with
      | nil => intro a; rfl
      | cons p rest ihp =>
        intro a
        by_cases hd : p.2.descendants = []
        · rw [List.foldl_cons, if_neg (by simp [hd])]
          exact ihp a
        · rw [List.foldl_cons, if_pos (by simpa using hd)]
          rw [ihp]
    rw [← Option.some_inj.mp h]
    exact hfold m acc

/-- One step of the module loop (typedefs then identities for one
module) preserves no-duplicates of the emitted-name registry's keys. -/
theorem modules_step_nodup (tdMap : TypedefMap) (idMap : IdMap)
    (acc : EmitAcc) (pfx : String) (acc' : EmitAcc)
    (h : (match emit_typedef_mod tdMap pfx acc with
          | none => none
          | some a => emit_identity_mod idMap pfx a) = some acc')
    (hnd : (acc.emitted.map Prod.fst).Nodup) :
    (acc'.emitted.map Prod.fst).Nodup := by
  match ht : emit_typedef_mod tdMap pfx acc with
  | none => rw [ht] at h; exact Option.noConfusion h
  | some a1 =>
    rw [ht] at h
    have h1 : (a1.emitted.map Prod.fst).Nodup := by
      unfold emit_typedef_mod at ht
      match hl : lookA tdMap pfx with
      | none => rw [hl] at ht; exact Option.noConfusion ht
      | some m =>
        rw [hl] at ht
        refine foldlM_preserve (fun b => (b.emitted.map Prod.fst).Nodup)
          (fun a p => emit_typedef_entry tdMap pfx a p.1 p.2) ?_ m acc a1 ht hnd
        intro b x b' hb hP
        rcases emit_typedef_entry_emitted tdMap pfx b x.1 x.2 b' hb with he | ⟨hn, he⟩
        · rw [he]; exact hP
        · rw [he, updA_fresh _ _ _ hn]
          rw [List.map_append]
          simp only [List.map_cons, List.map_nil]
          rw [List.nodup_append]
          refine ⟨hP, List.nodup_singleton _, ?_⟩
          intro x1 hx1
          simp only [List.mem_singleton]
          intro hx2
          rw [hx2] at hx1
          exact lookA_none_not_mem b.emitted x.2.golangName hn hx1
    rw [emit_identity_mod_emitted idMap pfx a1 acc' h]
    exact h1

/-- C6 amended: the typedef emitter checks `emitted_type_names` — on a
duplicate it emits nothing, keeps everything unchanged and appends one
warning line to the error stream, so the emitted-name registry's keys
stay pairwise distinct through the whole typedef/identity phase — and
the struct loop skips duplicate unique names silently (the `done` list
is duplicate-free); identity emission performs no such check. -/
theorem c6_name_dedup :
    (∀ (tdMap : TypedefMap) (pfx : String) (acc : EmitAcc) (name : String)
        (e : TDEntry) (acc' : EmitAcc) (src : String),
      e.path ∉ typedefExclude →
      ¬ e.typ.map TypeObj.arg = some "identityref" →
      lookA acc.emitted e.golangName = some src →
      emit_typedef_entry tdMap pfx acc name e = some acc' →
      acc' = EmitAcc.mk acc.emitted acc.fd acc.std
        (acc.err ++ ["warning " ++ pfx ++ ":" ++ name ++ ": " ++ name ++
          " has already been emitted from " ++ src ++ "."])) ∧
    (∀ (ctx : GenCtx) (acc : EmitAcc),
      modulesPhase ctx = some acc → (acc.emitted.map Prod.fst).Nodup) ∧
    (∀ (ctx : GenCtx) (acc accF : EmitAcc) (doneF : List String),
      structPhase ctx acc = some (accF, doneF) → doneF.Nodup) := by
  refine ⟨?_, ?_, ?_⟩
  · intro tdMap pfx acc name e acc' src h1 h2 h3 h
    unfold emit_typedef_entry at h
    rw [if_neg h1, if_neg h2] at h
    simp only [h3] at h
    exact (Option.some_inj.mp h).symm
  · intro ctx acc h
    unfold modulesPhase at h
    refine foldlM_preserve (fun b => (b.emitted.map Prod.fst).Nodup)
      _ ?_ ctx.moduleDeps _ acc h (by simp)
    intro b x b' hb hP
    exact modules_step_nodup ctx.tdMap ctx.idMap b x b' hb hP
  · intro ctx acc accF doneF h
    unfold structPhase at h
    obtain ⟨h1, _⟩ := structFold_done ctx ctx.reg.defs.reverse acc [] accF doneF h
    rw [h1]
    simpa using newNames_nodup ctx.reg.defs.reverse []

/-- Witness for the amended C6: a duplicate typedef entry produces
exactly the warning line, at a concrete registry state. -/
theorem c6_witness :
    emit_typedef_entry [] "p" (EmitAcc.mk [("Origin", "q:origin")] [] [] [])
      "origin" (TDEntry.mk "origin" "/p:origin" "Origin"
        (some strType) false none []) =
      some (EmitAcc.mk [("Origin", "q:origin")] [] []
        ["warning p:origin: origin has already been emitted from q:origin."]) := by
  have h : emit_typedef_entry [] "p" (EmitAcc.mk [("Origin", "q:origin")] [] [] [])
      "origin" (TDEntry.mk "origin" "/p:origin" "Origin"
        (some strType) false none []) =
      some (EmitAcc.mk [("Origin", "q:origin")] [] []
        ["warning p:origin: origin has already been emitted from q:origin."]) := by
    decide
  have := c6_name_dedup.1 [] "p" (EmitAcc.mk [("Origin", "q:origin")] [] [] [])
    "origin" (TDEntry.mk "origin" "/p:origin" "Origin" (some strType) false none [])
    (EmitAcc.mk [("Origin", "q:origin")] [] []
      ["warning p:origin: origin has already been emitted from q:origin."])
    "q:origin" (by decide) (by decide) (by decide) h
  rw [this] at h
  exact h

/-! # Claim C3: emission order -/

/-- C3 counterexample: in the shared-child pipeline the emitted stream
contains struct `B`'s field referencing the type `Shared` (line index 5)
before the definition `pub(crate) struct Shared` (line index 8), a
textual forward reference; reverse discovery order does not protect a
struct that references a merged child first discovered under an earlier
struct. -/
theorem c3_counterexample :
    ((emit_go c3ctx).map (fun a =>
      (a.fd.get? 5, a.fd.get? 8, a.fd.length))) =
      some (some "pub(crate) shared:Option<Shared>,",
            some "pub(crate) struct Shared \x7b", 17) := by
  decide

/-- C3 amended: the emitter writes the header and every module's
typedef- and identity-derived enumerations first, then the structs: the
struct phase only appends after the typedef/identity output, processes
the registry in reverse discovery order, and its `done` list is exactly
the first-occurrence filter of the reversed registry's unique names. -/
theorem c3_emission_order (ctx : GenCtx) (acc : EmitAcc)
    (h : emit_go ctx = some acc) :
    ∃ acc1 doneF t,
      modulesPhase ctx = some acc1 ∧
      structPhase ctx acc1 = some (acc, doneF) ∧
      acc.fd = acc1.fd ++ t ∧
      doneF = newNames ctx.reg.defs.reverse [] := by
  unfold emit_go at h
  match h1 : modulesPhase ctx with
  | none => rw [h1] at h; exact Option.noConfusion h
  | some acc1 =>
    rw [h1] at h
    have h' : (match structPhase ctx acc1 with
               | none => none
               | some pF => some pF.1) = some acc := h
    match h2 : structPhase ctx acc1 with
    | none => rw [h2] at h'; exact Option.noConfusion h'
    | some pF =>
      obtain ⟨pf1, pf2⟩ := pF
      rw [h2] at h'
      have hacc : pf1 = acc := Option.some_inj.mp h'
      subst hacc
      obtain ⟨hdone, ⟨t, htt⟩⟩ := structFold_done ctx ctx.reg.defs.reverse acc1 []
        pf1 pf2 (by simpa [structPhase] using h2)
      exact ⟨acc1, pf2, t, rfl, h2, htt, by simpa using hdone⟩

/-- Witness for the amended C3 on the concrete shared-child pipeline. -/
theorem c3_witness :
    ∃ acc1 doneF t,
      modulesPhase c3ctx = some acc1 ∧
      structPhase c3ctx acc1 = some (c3out, doneF) ∧
      c3out.fd = acc1.fd ++ t ∧
      doneF = newNames c3ctx.reg.defs.reverse [] :=
  c3_emission_order c3ctx c3out (by rfl)

/-! # Claim C9: what reaches the supplied stream -/

theorem head_append (a b : String) (c : Char) (h : a.data.head? = some c) :
    (a ++ b).data.head? = some c := by
  obtain ⟨x⟩ := a
  obtain ⟨y⟩ := b
  show (x ++ y).head? = some c
  match x with
  | [] => exact Option.noConfusion h
  | ch :: rest => exact h

theorem descLines_heads (d : Option String) :
    ∀ l ∈ descLines d, l.data.head? = some '/' := by
  match d with
  | none => intro l hl; simp [descLines] at hl
  | some dd =>
    intro l hl
    rw [List.mem_singleton.mp hl]
    apply head_append
    decide

theorem resolveLeafType_comments_heads (tdMap : TypedefMap) (cp : Option String)
    (cn vg : String) (t : TypeObj) (comments : List String) (ty : String)
    (h : resolveLeafType tdMap cp cn vg t = some (.ok comments ty)) :
    ∀ l ∈ comments, l.data.head? = some '/' := by
  unfold resolveLeafType at h
  repeat' split at h
  all_goals
    first
    | exact Option.noConfusion h
    | exact LeafRes.noConfusion (Option.some_inj.mp h)
    | (have hc := Option.some_inj.mp h
       injection hc with h1 h2
       subst h1
       intro l hl
       first
       | exact absurd hl (List.not_mem_nil _)
       | (rw [List.mem_singleton.mp hl]
          repeat' apply head_append
          decide))

theorem resolveLeafListType_comments_heads (tdMap : TypedefMap) (t : TypeObj)
    (comments : List String) (ty : String)
    (h : resolveLeafListType tdMap t = some (comments, ty)) :
    ∀ l ∈ comments, l.data.head? = some '/' := by
  unfold resolveLeafListType at h
  repeat' split at h
  all_goals
    first
    | exact Option.noConfusion h
    | (have hc := Option.some_inj.mp h
       injection hc with h1 h2
       subst h1
       intro l hl
       first
       | exact absurd hl (List.not_mem_nil _)
       | (rw [List.mem_singleton.mp hl]
          repeat' apply head_append
          decide))

theorem fieldTail_heads (child : SNode) (fd1 : List String) (tag : String)
    (tyOpt : Option String) (f s : List String)
    (h : fieldTail child fd1 tag tyOpt = some (f, s))
    (hfd1 : ∀ l ∈ fd1, fdLineHead l) :
    (∀ l ∈ f, fdLineHead l) ∧ (∀ l ∈ s, l.data.head? = some '#') := by
  match tyOpt with
  | none => exact Option.noConfusion h
  | some ty =>
    simp only [fieldTail] at h
    have hp := Option.some_inj.mp h
    have hf : f = fd1 ++ emit_description_lines child ++
        ["pub(crate) " ++ charReplace '-' "_" (if tag = "as" then "r#as" else tag)
          ++ ":Option<" ++ ty ++ ">,"] := (congrArg Prod.fst hp).symm
    have hs : s = (if tag.data.contains '-' = true then
        ["#[serde(rename = \"" ++ tag ++ "\")]"] else []) :=
      (congrArg Prod.snd hp).symm
    constructor
    · intro l hl
      rw [hf] at hl
      rcases List.mem_append.mp hl with hl1 | hl1
      · rcases List.mem_append.mp hl1 with hl2 | hl2
        · exact hfd1 l hl2
        · exact Or.inl (descLines_heads child.descr l hl2)
      · rw [List.mem_singleton.mp hl1]
        right; left
        repeat' apply head_append
        decide
    · intro l hl
      rw [hs] at hl
      by_cases hc : tag.data.contains '-' = true
      · rw [if_pos hc] at hl
        rw [List.mem_singleton.mp hl]
        repeat' apply head_append
        decide
      · rw [if_neg hc] at hl
        exact absurd hl (List.not_mem_nil _)

theorem resolveLeafList_comments_heads (tdMap : TypedefMap) (v t : String)
    (tobj : TypeObj) (val2 tag2 : String) (comments : List String) (ty : String)
    (h : resolveLeafList tdMap v t tobj = some (val2, tag2, comments, ty)) :
    ∀ l ∈ comments, l.data.head? = some '/' := by
  unfold resolveLeafList at h
  match hy : resolveLeafListType tdMap tobj with
  | none => rw [hy] at h; exact Option.noConfusion h
  | some pr =>
    obtain ⟨cm, tyy⟩ := pr
    rw [hy] at h
    have hp := Option.some_inj.mp h
    injection hp with hp1 hp2
    injection hp2 with hp3 hp4
    injection hp4 with hp5 hp6
    rw [← hp5]
    exact resolveLeafListType_comments_heads tdMap tobj cm tyy hy

theorem processChild_heads (ctx : VCtx) (su : String) (child : SNode)
    (f s : List String) (h : processChild ctx su child = some (f, s)) :
    (∀ l ∈ f, fdLineHead l) ∧ (∀ l ∈ s, l.data.head? = some '#') := by
  simp only [processChild] at h
  repeat' split at h
  all_goals try exact Option.noConfusion h
  all_goals try
    (refine fieldTail_heads _ _ _ _ f s h ?_
     intro l hl
     first
     | (rw [List.mem_singleton.mp hl]; left; (repeat' apply head_append); decide)
     | (rcases List.mem_append.mp hl with h1 | h1
        · rw [List.mem_singleton.mp h1]; left
          repeat' apply head_append
          decide
        · left
          first
          | exact resolveLeafType_comments_heads _ _ _ _ _ _ _ (by assumption) l h1
          | exact resolveLeafList_comments_heads _ _ _ _ _ _ _ _ (by assumption) l h1))
  all_goals
    (have hp := Option.some_inj.mp h
     have hf : f = _ := (congrArg Prod.fst hp).symm
     have hs : s = _ := (congrArg Prod.snd hp).symm
     subst hf; subst hs
     constructor
     · intro l hl
       first
       | exact absurd hl (List.not_mem_nil _)
       | (rw [List.mem_singleton.mp hl]; left; (repeat' apply head_append); decide)
     · intro l hl
       exact absurd hl (List.not_mem_nil _))

/-- C9 counterexample: for a struct with one hyphenated leaf the supplied
stream receives neither the `deny_unknown_fields` annotation nor the
serde rename attribute; both are printed to standard output instead. -/
theorem c9_counterexample :
    emit_class_def (VCtx.mk (RegState.mk [] []) []) c9ent =
      some (["// struct for container p:peer.", "pub(crate) struct Peer \x7b",
             "// original -> p:local-address",
             "pub(crate) local_address:Option<String>,", "\x7d"],
            ["#[derive(Deserialize, Debug, Default)]",
             "#[serde(deny_unknown_fields)]",
             "#[serde(rename = \"local-address\")]"]) ∧
    "#[serde(deny_unknown_fields)]" ∉
      ["// struct for container p:peer.", "pub(crate) struct Peer \x7b",
       "// original -> p:local-address",
       "pub(crate) local_address:Option<String>,", "\x7d"] ∧
    "#[serde(rename = \"local-address\")]" ∉
      ["// struct for container p:peer.", "pub(crate) struct Peer \x7b",
       "// original -> p:local-address",
       "pub(crate) local_address:Option<String>,", "\x7d"] := by
  refine ⟨by decide, by decide, by decide⟩

/-- C9 amended: the struct declaration on the supplied stream consists
of comment lines, the struct/field lines and the closing brace — every
field Option-wrapped — while the derive and `deny_unknown_fields`
annotations and all serde rename attributes go to standard output (every
standard-output line starts with `#`, no supplied-stream line does); a
field whose tag is the reserved word `as` is emitted as the raw
identifier `r#as` with no rename attribute, and a rename attribute is
emitted exactly for tags containing a hyphen. -/
theorem c9_stream_split :
    (∀ (ctx : VCtx) (ent : RegEntry) (fd std : List String),
      singleListChild ent.node = false →
      emit_class_def ctx ent = some (fd, std) →
      "#[derive(Deserialize, Debug, Default)]" ∈ std ∧
      "#[serde(deny_unknown_fields)]" ∈ std ∧
      (∀ l ∈ fd, fdLineHead l) ∧
      (∀ l ∈ std, l.data.head? = some '#')) ∧
    (∀ (child : SNode) (fd1 : List String) (ty : String)
        (out : List String × List String),
      fieldTail child fd1 "as" (some ty) = some out →
      out.1 = fd1 ++ emit_description_lines child ++
        ["pub(crate) r#as:Option<" ++ ty ++ ">,"] ∧ out.2 = []) ∧
    (∀ (child : SNode) (fd1 : List String) (tag ty : String)
        (out : List String × List String),
      fieldTail child fd1 tag (some ty) = some out →
      (∃ tg, out.1 = fd1 ++ emit_description_lines child ++
        ["pub(crate) " ++ tg ++ ":Option<" ++ ty ++ ">,"]) ∧
      (tag.data.contains '-' = true →
        out.2 = ["#[serde(rename = \"" ++ tag ++ "\")]"]) ∧
      (tag.data.contains '-' = false → out.2 = [])) := by
  refine ⟨?_, ?_, ?_⟩
  · intro ctx ent fd std hsl h
    simp only [emit_class_def, hsl, Bool.false_eq_true, if_false] at h
    match hfold : ent.node.children.foldlM
        (fun (acc : List String × List String) child =>
          match processChild ctx ent.uniqName child with
          | none => none
          | some (f, s) => some (acc.1 ++ f, acc.2 ++ s))
        (["// struct for container " ++ ent.modulePfx ++ ":" ++ ent.node.arg ++ "."]
          ++ emit_description_lines ent.node
          ++ ["pub(crate) struct " ++ convert_to_golang ent.uniqName ++ " \x7b"],
         ["#[derive(Deserialize, Debug, Default)]",
          "#[serde(deny_unknown_fields)]"]) with
    | none => rw [hfold] at h; exact Option.noConfusion h
    | some fdstd =>
      rw [hfold] at h
      have hp := Option.some_inj.mp h
      have hfd : fd = fdstd.1 ++ ["\x7d"] := (congrArg Prod.fst hp).symm
      have hstd : std = fdstd.2 := (congrArg Prod.snd hp).symm
      have hinv := foldlM_preserve
        (fun (acc : List String × List String) =>
          "#[derive(Deserialize, Debug, Default)]" ∈ acc.2 ∧
          "#[serde(deny_unknown_fields)]" ∈ acc.2 ∧
          (∀ l ∈ acc.1, fdLineHead l) ∧
          (∀ l ∈ acc.2, l.data.head? = some '#'))
        (fun acc child =>
          match processChild ctx ent.uniqName child with
          | none => none
          | some (f, s) => some (acc.1 ++ f, acc.2 ++ s)) ?_
        ent.node.children _ fdstd hfold ?_
      · obtain ⟨hd1, hd2, hd3, hd4⟩ := hinv
        rw [hfd, hstd]
        refine ⟨hd1, hd2, ?_, hd4⟩
        intro l hl
        rcases List.mem_append.mp hl with hl1 | hl1
        · exact hd3 l hl1
        · rw [List.mem_singleton.mp hl1]
          right; right; decide
      · intro b x b' hb hP
        have hb2 : (match processChild ctx ent.uniqName x with
                    | none => none
                    | some (f, s) => some (b.1 ++ f, b.2 ++ s)) = some b' := hb
        match hpc : processChild ctx ent.uniqName x with
        | none => rw [hpc] at hb2; exact Option.noConfusion hb2
        | some fs =>
          rw [hpc] at hb2
          obtain ⟨fpc, spc⟩ := fs
          have hb' := Option.some_inj.mp hb2
          have hb1 : b' = (b.1 ++ fpc, b.2 ++ spc) := hb'.symm
          obtain ⟨q1, q2, q3, q4⟩ := hP
          obtain ⟨r1, r2⟩ := processChild_heads ctx ent.uniqName x fpc spc hpc
          rw [hb1]
          refine ⟨List.mem_append_left _ q1, List.mem_append_left _ q2, ?_, ?_⟩
          · intro l hl
            rcases List.mem_append.mp hl with h1 | h1
            · exact q3 l h1
            · exact r1 l h1
          · intro l hl
            rcases List.mem_append.mp hl with h1 | h1
            · exact q4 l h1
            · exact r2 l h1
      · refine ⟨by simp, by simp, ?_, ?_⟩
        · intro l hl
          rcases List.mem_append.mp hl with h1 | h1
          · rcases List.mem_append.mp h1 with h2 | h2
            · rw [List.mem_singleton.mp h2]
              left
              repeat' apply head_append
              decide
            · exact Or.inl (descLines_heads ent.node.descr l h2)
          · rw [List.mem_singleton.mp h1]
            right; left
            repeat' apply head_append
            decide
        · intro l hl
          rcases List.mem_cons.mp hl with h1 | h1
          · rw [h1]; decide
          · rw [List.mem_singleton.mp h1]; decide
  · intro child fd1 ty out h
    have hcomp : fieldTail child fd1 "as" (some ty) =
        some (fd1 ++ emit_description_lines child ++
          ["pub(crate) r#as:Option<" ++ ty ++ ">,"], []) := rfl
    rw [hcomp] at h
    have hp := Option.some_inj.mp h
    rw [← hp]
    exact ⟨rfl, rfl⟩
  · intro child fd1 tag ty out h
    simp only [fieldTail] at h
    have hp := Option.some_inj.mp h
    have h1 : out.1 = fd1 ++ emit_description_lines child ++
        ["pub(crate) " ++ charReplace '-' "_" (if tag = "as" then "r#as" else tag)
          ++ ":Option<" ++ ty ++ ">,"] := (congrArg Prod.fst hp).symm
    have h2 : out.2 = (if tag.data.contains '-' = true then
        ["#[serde(rename = \"" ++ tag ++ "\")]"] else []) :=
      (congrArg Prod.snd hp).symm
    refine ⟨⟨_, h1⟩, ?_, ?_⟩
    · intro hc; rw [h2, if_pos hc]
    · intro hc; rw [h2, if_neg (by rw [hc]; exact Bool.false_ne_true)]

/-! # Claim C2: the module dependency resolver -/

/-- C2 counterexample: module 0 (`a-mod`) lists its own prefix first and
then its import of module 1 (`b-mod`); the resolver produces `[0, 1]`,
i.e. the importer before its import, so the sequence is not topological;
and two unrelated modules come out in whichever order they were
supplied, so the result is not independent of the input ordering. -/
theorem c2_counterexample :
    depsOf (checkAllDeps c2envA 10 [0]) = some [0, 1] ∧
    c2envA 0 = some (PModule.mk "a" "a-mod" [("a", 0), ("b", 1)]) ∧
    c2envA 1 = some (PModule.mk "b" "b-mod" [("b", 1)]) ∧
    depsOf (checkAllDeps c2envB 10 [0, 1]) = some [0, 1] ∧
    depsOf (checkAllDeps c2envB 10 [1, 0]) = some [1, 0] := by
  refine ⟨by decide, rfl, rfl, by decide, by decide⟩

theorem noexcl_append (env : Nat → Option PModule) (l : List Nat) (v : Nat)
    (hexcl : NoExcl env l)
    (hv : ∀ m, env v = some m → m.iModulename ∉ moduleExcluded) :
    NoExcl env (l ++ [v]) := by
  intro i hi m hm
  rcases List.mem_append.mp hi with h1 | h1
  · exact hexcl i h1 m hm
  · have hiv : i = v := List.mem_singleton.mp h1
    subst hiv
    exact hv m hm

theorem topo_append (env : Nat → Option PModule) (l : List Nat) (v : Nat)
    (m2 : PModule) (htopo : TopoOrdered env l) (henv : env v = some m2)
    (himp : ∀ kv ∈ m2.iPfxes, kv.2 ≠ v → ∀ m3, env kv.2 = some m3 →
      m3.iModulename ∉ moduleExcluded → kv.2 ∈ l) :
    TopoOrdered env (l ++ [v]) := by
  intro n i hget mm hmm kv hkv hne m3 hm3 hexc
  by_cases hn : n < l.length
  · rw [List.get?_append hn] at hget
    obtain ⟨n', hn', hg'⟩ := htopo n i hget mm hmm kv hkv hne m3 hm3 hexc
    have hn'l : n' < l.length := lt_trans hn' hn
    exact ⟨n', hn', by rw [List.get?_append hn'l]; exact hg'⟩
  · have hlen : n < l.length + 1 := by
      obtain ⟨hlt, _⟩ := List.get?_eq_some.mp hget
      simpa using hlt
    have hnl : n = l.length := by omega
    subst hnl
    rw [List.get?_concat_length] at hget
    have hiv : v = i := Option.some_inj.mp hget
    subst hiv
    have hmm2 : mm = m2 := by
      rw [hmm] at henv
      exact Option.some_inj.mp henv
    subst hmm2
    have hmem := himp kv hkv hne m3 hm3 hexc
    obtain ⟨n', hg'⟩ := List.mem_iff_get?.mp hmem
    obtain ⟨hn'l, _⟩ := List.get?_eq_some.mp hg'
    exact ⟨n', hn'l, by rw [List.get?_append hn'l]; exact hg'⟩

/-- The heart of the amended C2: assuming a topologically indexed module
universe with unique prefixes (`EnvAcyclic`) and self entries last
(`SelfLast`), a completed `check_module_deps` loop preserves the ordering
invariants, only appends to `module_deps`, and afterwards every
resolvable non-excluded entry of the processed suffix is present. -/
theorem cmdGo_topo (env : Nat → Option PModule)
    (hacy : EnvAcyclic env) (hlast : SelfLast env) :
    ∀ fuel : Nat, ∀ i m, env i = some m →
    ∀ rest done st st', m.iPfxes = done ++ rest →
    cmdGo env fuel m.iPfx rest st = some st' →
    (∀ kv ∈ done, kv.2 ≠ i → ∀ m2, env kv.2 = some m2 →
      m2.iModulename ∉ moduleExcluded → kv.2 ∈ st.moduleDeps) →
    TopoOrdered env st.moduleDeps → NoExcl env st.moduleDeps →
    TopoOrdered env st'.moduleDeps ∧ NoExcl env st'.moduleDeps ∧
    (∃ t, st'.moduleDeps = st.moduleDeps ++ t) ∧
    (∀ kv ∈ rest, ∀ m2, env kv.2 = some m2 → m2.iModulename ∉ moduleExcluded →
      kv.2 ∈ st'.moduleDeps) := by
  intro fuel
  induction fuel with
  | zero =>
    intro i m hm rest done st st' hsplit hrun
    exact absurd hrun (by simp [cmdGo])
  | succ f ihf =>
    intro i m hm rest done st st' hsplit hrun hdone htopo hexcl
    cases rest with
    | nil =>
      have hss : some st = some st' := hrun
      rw [← Option.some_inj.mp hss]
      refine ⟨htopo, hexcl, ⟨[], by simp⟩, ?_⟩
      intro kv hkv
      exact absurd hkv (List.not_mem_nil _)
    | cons kv0 rest' =>
      obtain ⟨k, v⟩ := kv0
      have hkvmem : (k, v) ∈ m.iPfxes := by
        rw [hsplit]
        exact List.mem_append_right _ (List.mem_cons_self _ _)
      have hsplit' : m.iPfxes = (done ++ [(k, v)]) ++ rest' := by
        rw [hsplit, List.append_assoc]
        rfl
      match henv : env v with
      | none =>
        have hstep : cmdGo env (f + 1) m.iPfx ((k, v) :: rest') st =
            cmdGo env f m.iPfx rest' st := by
          simp [cmdGo, henv]
        rw [hstep] at hrun
        have hdone' : ∀ kv ∈ done ++ [(k, v)], kv.2 ≠ i →
            ∀ m2, env kv.2 = some m2 → m2.iModulename ∉ moduleExcluded →
            kv.2 ∈ st.moduleDeps := by
          intro kv hkv hne m2 hm2 hexc
          rcases List.mem_append.mp hkv with h1 | h1
          · exact hdone kv h1 hne m2 hm2 hexc
          · have hkv' : kv = (k, v) := List.mem_singleton.mp h1
            subst hkv'
            rw [henv] at hm2
            exact Option.noConfusion hm2
        obtain ⟨q1, q2, q3, q4⟩ := ihf i m hm rest' (done ++ [(k, v)]) st st'
          hsplit' hrun hdone' htopo hexcl
        refine ⟨q1, q2, q3, ?_⟩
        intro kv hkv m2 hm2 hexc
        rcases List.mem_cons.mp hkv with h1 | h1
        · subst h1
          rw [henv] at hm2
          exact Option.noConfusion hm2
        · exact q4 kv h1 m2 hm2 hexc
      | some m2 =>
        by_cases hpfx : m2.iPfx ≠ m.iPfx
        · -- a real import: the recursion into it happens first
          match hrec : cmdGo env f m2.iPfx m2.iPfxes st with
          | none =>
            have hstep : cmdGo env (f + 1) m.iPfx ((k, v) :: rest') st = none := by
              simp [cmdGo, henv, hpfx, hrec]
            rw [hstep] at hrun
            exact Option.noConfusion hrun
          | some st1 =>
            have hstep : cmdGo env (f + 1) m.iPfx ((k, v) :: rest') st =
                cmdGo env f m.iPfx rest'
                  (if v ∉ st1.moduleDeps ∧ m2.iModulename ∉ moduleExcluded then
                    DepState.mk (updA st1.pfxRel m2.iPfx k) (st1.moduleDeps ++ [v])
                  else DepState.mk (updA st1.pfxRel m2.iPfx k) st1.moduleDeps) := by
              simp [cmdGo, henv, hpfx, hrec]
            rw [hstep] at hrun
            obtain ⟨r1, r2, ⟨t1, ht1⟩, r4⟩ := ihf v m2 henv m2.iPfxes [] st st1
              (by simp) hrec (fun kv hkv => absurd hkv (List.not_mem_nil _))
              htopo hexcl
            by_cases happ : v ∉ st1.moduleDeps ∧ m2.iModulename ∉ moduleExcluded
            · rw [if_pos happ] at hrun
              have htopo3 : TopoOrdered env (st1.moduleDeps ++ [v]) :=
                topo_append env _ v m2 r1 henv
                  (fun kv hkv _ m3 hm3 hexc => r4 kv hkv m3 hm3 hexc)
              have hexcl3 : NoExcl env (st1.moduleDeps ++ [v]) :=
                noexcl_append env _ v r2 (fun m3 hm3 => by
                  rw [henv] at hm3
                  rw [← Option.some_inj.mp hm3]
                  exact happ.2)
              have hdone3 : ∀ kv ∈ done ++ [(k, v)], kv.2 ≠ i →
                  ∀ m3, env kv.2 = some m3 → m3.iModulename ∉ moduleExcluded →
                  kv.2 ∈ st1.moduleDeps ++ [v] := by
                intro kv hkv hne m3 hm3 hexc
                rcases List.mem_append.mp hkv with h1 | h1
                · refine List.mem_append_left _ ?_
                  rw [ht1]
                  exact List.mem_append_left _ (hdone kv h1 hne m3 hm3 hexc)
                · have hkv' : kv = (k, v) := List.mem_singleton.mp h1
                  subst hkv'
                  exact List.mem_append_right _ (List.mem_singleton.mpr rfl)
              obtain ⟨q1, q2, ⟨t2, ht2⟩, q4⟩ := ihf i m hm rest' (done ++ [(k, v)])
                (DepState.mk (updA st1.pfxRel m2.iPfx k) (st1.moduleDeps ++ [v]))
                st' hsplit' hrun hdone3 htopo3 hexcl3
              have ht2' : st'.moduleDeps = (st1.moduleDeps ++ [v]) ++ t2 := ht2
              refine ⟨q1, q2, ?_, ?_⟩
              · refine ⟨t1 ++ [v] ++ t2, ?_⟩
                rw [ht2', ht1]
                simp [List.append_assoc]
              · intro kv hkv m3 hm3 hexc
                rcases List.mem_cons.mp hkv with h1 | h1
                · subst h1
                  rw [ht2']
                  exact List.mem_append_left _
                    (List.mem_append_right _ (List.mem_singleton.mpr rfl))
                · exact q4 kv h1 m3 hm3 hexc
            · rw [if_neg happ] at hrun
              have hvin : m2.iModulename ∉ moduleExcluded →
                  v ∈ st1.moduleDeps := by
                intro hexc
                by_contra hcon
                exact happ ⟨hcon, hexc⟩
              have hdone3 : ∀ kv ∈ done ++ [(k, v)], kv.2 ≠ i →
                  ∀ m3, env kv.2 = some m3 → m3.iModulename ∉ moduleExcluded →
                  kv.2 ∈ st1.moduleDeps := by
                intro kv hkv hne m3 hm3 hexc
                rcases List.mem_append.mp hkv with h1 | h1
                · rw [ht1]
                  exact List.mem_append_left _ (hdone kv h1 hne m3 hm3 hexc)
                · have hkv' : kv = (k, v) := List.mem_singleton.mp h1
                  subst hkv'
                  rw [henv] at hm3
                  have hm32 : m3 = m2 := Option.some_inj.mp hm3.symm
                  subst hm32
                  exact hvin hexc
              obtain ⟨q1, q2, ⟨t2, ht2⟩, q4⟩ := ihf i m hm rest' (done ++ [(k, v)])
                (DepState.mk (updA st1.pfxRel m2.iPfx k) st1.moduleDeps)
                st' hsplit' hrun hdone3 r1 r2
              have ht2' : st'.moduleDeps = st1.moduleDeps ++ t2 := ht2
              refine ⟨q1, q2, ?_, ?_⟩
              · refine ⟨t1 ++ t2, ?_⟩
                rw [ht2', ht1]
                simp [List.append_assoc]
              · intro kv hkv m3 hm3 hexc
                rcases List.mem_cons.mp hkv with h1 | h1
                · subst h1
                  rw [ht2']
                  rw [henv] at hm3
                  have hm32 : m3 = m2 := Option.some_inj.mp hm3.symm
                  subst hm32
                  exact List.mem_append_left _ (hvin hexc)
                · exact q4 kv h1 m3 hm3 hexc
        · -- the self entry: no recursion, the module itself may be appended
          have hpeq : m2.iPfx = m.iPfx := not_ne_iff.mp hpfx
          have hvi : v = i := (hacy i m hm (k, v) hkvmem m2 henv).2 hpeq
          have hm2m : m2 = m := by
            have henv2 := henv
            rw [hvi, hm] at henv2
            exact (Option.some_inj.mp henv2).symm
          have hstep : cmdGo env (f + 1) m.iPfx ((k, v) :: rest') st =
              cmdGo env f m.iPfx rest'
                (if v ∉ st.moduleDeps ∧ m2.iModulename ∉ moduleExcluded then
                  DepState.mk (updA st.pfxRel m2.iPfx k) (st.moduleDeps ++ [v])
                else DepState.mk (updA st.pfxRel m2.iPfx k) st.moduleDeps) := by
            simp [cmdGo, henv, hpfx]
          rw [hstep] at hrun
          by_cases happ : v ∉ st.moduleDeps ∧ m2.iModulename ∉ moduleExcluded
          · rw [if_pos happ] at hrun
            have himp : ∀ kv ∈ m2.iPfxes, kv.2 ≠ v → ∀ m3, env kv.2 = some m3 →
                m3.iModulename ∉ moduleExcluded → kv.2 ∈ st.moduleDeps := by
              intro kv2 hkv2 hne m3 hm3 hexc
              rw [hm2m, hsplit] at hkv2
              rcases List.mem_append.mp hkv2 with h1 | h1
              · have hnei : kv2.2 ≠ i := by
                  rw [← hvi]
                  exact hne
                exact hdone kv2 h1 hnei m3 hm3 hexc
              · rcases List.mem_cons.mp h1 with h2 | h2
                · subst h2
                  exact absurd rfl hne
                · have hkv2i : kv2.2 = i :=
                    hlast i m hm done (k, v) rest' hsplit hvi kv2 h2
                  exact absurd (hkv2i.trans hvi.symm) hne
            have htopo3 : TopoOrdered env (st.moduleDeps ++ [v]) :=
              topo_append env _ v m2 htopo henv himp
            have hexcl3 : NoExcl env (st.moduleDeps ++ [v]) :=
              noexcl_append env _ v hexcl (fun m3 hm3 => by
                rw [henv] at hm3
                rw [← Option.some_inj.mp hm3]
                exact happ.2)
            have hdone3 : ∀ kv ∈ done ++ [(k, v)], kv.2 ≠ i →
                ∀ m3, env kv.2 = some m3 → m3.iModulename ∉ moduleExcluded →
                kv.2 ∈ st.moduleDeps ++ [v] := by
              intro kv hkv hne m3 hm3 hexc
              rcases List.mem_append.mp hkv with h1 | h1
              · exact List.mem_append_left _ (hdone kv h1 hne m3 hm3 hexc)
              · have hkv' : kv = (k, v) := List.mem_singleton.mp h1
                subst hkv'
                exact absurd hvi hne
            obtain ⟨q1, q2, ⟨t2, ht2⟩, q4⟩ := ihf i m hm rest' (done ++ [(k, v)])
              (DepState.mk (updA st.pfxRel m2.iPfx k) (st.moduleDeps ++ [v]))
              st' hsplit' hrun hdone3 htopo3 hexcl3
            have ht2' : st'.moduleDeps = (st.moduleDeps ++ [v]) ++ t2 := ht2
            refine ⟨q1, q2, ?_, ?_⟩
            · exact ⟨[v] ++ t2, by rw [ht2']; simp [List.append_assoc]⟩
            · intro kv hkv m3 hm3 hexc
              rcases List.mem_cons.mp hkv with h1 | h1
              · subst h1
                rw [ht2']
                exact List.mem_append_left _
                  (List.mem_append_right _ (List.mem_singleton.mpr rfl))
              · exact q4 kv h1 m3 hm3 hexc
          · rw [if_neg happ] at hrun
            have hvin : m2.iModulename ∉ moduleExcluded → v ∈ st.moduleDeps := by
              intro hexc
              by_contra hcon
              exact happ ⟨hcon, hexc⟩
            have hdone3 : ∀ kv ∈ done ++ [(k, v)], kv.2 ≠ i →
                ∀ m3, env kv.2 = some m3 → m3.iModulename ∉ moduleExcluded →
                kv.2 ∈ st.moduleDeps := by
              intro kv hkv hne m3 hm3 hexc
              rcases List.mem_append.mp hkv with h1 | h1
              · exact hdone kv h1 hne m3 hm3 hexc
              · have hkv' : kv = (k, v) := List.mem_singleton.mp h1
                subst hkv'
                exact absurd hvi hne
            obtain ⟨q1, q2, ⟨t2, ht2⟩, q4⟩ := ihf i m hm rest' (done ++ [(k, v)])
              (DepState.mk (updA st.pfxRel m2.iPfx k) st.moduleDeps)
              st' hsplit' hrun hdone3 htopo hexcl
            have ht2' : st'.moduleDeps = st.moduleDeps ++ t2 := ht2
            refine ⟨q1, q2, ?_, ?_⟩
            · exact ⟨t2, ht2'⟩
            · intro kv hkv m3 hm3 hexc
              rcases List.mem_cons.mp hkv with h1 | h1
              · subst h1
                rw [ht2']
                rw [henv] at hm3
                have hm32 : m3 = m2 := Option.some_inj.mp hm3.symm
                subst hm32
                exact List.mem_append_left _ (hvin hexc)
              · exact q4 kv h1 m3 hm3 hexc

theorem singleton_decomp {α : Type} (x : α) (l1 l2 : List α) (kv : α)
    (h : [x] = l1 ++ kv :: l2) : l1 = [] ∧ kv = x ∧ l2 = [] := by
  cases l1 with
  | nil =>
    rw [List.nil_append] at h
    injection h with h1 h2
    exact ⟨rfl, h1.symm, h2.symm⟩
  | cons a l1' =>
    have h1 := congrArg List.length h
    simp at h1

theorem pair_decomp {α : Type} (x y : α) (l1 l2 : List α) (kv : α)
    (h : [x, y] = l1 ++ kv :: l2) :
    (l1 = [] ∧ kv = x ∧ l2 = [y]) ∨ (l1 = [x] ∧ kv = y ∧ l2 = []) := by
  cases l1 with
  | nil =>
    rw [List.nil_append] at h
    injection h with h1 h2
    exact Or.inl ⟨rfl, h1.symm, h2.symm⟩
  | cons a l1' =>
    cases l1' with
    | nil =>
      rw [List.cons_append, List.nil_append] at h
      injection h with ha h'
      injection h' with hb h2
      exact Or.inr ⟨by rw [ha], hb.symm, h2.symm⟩
    | cons b l1'' =>
      have h1 := congrArg List.length h
      simp at h1

/-- C2 (amended): when the module universe is topologically indexed with
unique prefixes (`EnvAcyclic`) and every module lists its imports before
its own self entry (`SelfLast`), the resolver's `module_deps` sequence
places every module after all resolvable non-excluded modules its prefix
table references, and never contains an excluded module.  (The original
claim fails without these provisos: the counterexample shows a module
whose self entry comes first precedes its own import, and that the
sequence follows the input order for unrelated modules.) -/
theorem c2_topological_order (env : Nat → Option PModule)
    (hacy : EnvAcyclic env) (hlast : SelfLast env)
    (fuel : Nat) (mods : List Nat) (st' : DepState)
    (hrun : checkAllDeps env fuel mods = some st') :
    TopoOrdered env st'.moduleDeps ∧ NoExcl env st'.moduleDeps := by
  have hpres : ∀ (b : DepState) (x : Nat) (b' : DepState),
      check_module_deps env fuel x b = some b' →
      (TopoOrdered env b.moduleDeps ∧ NoExcl env b.moduleDeps) →
      TopoOrdered env b'.moduleDeps ∧ NoExcl env b'.moduleDeps := by
    intro b x b' hcm hP
    match hmx : env x with
    | none =>
      have heq : check_module_deps env fuel x b = some b := by
        simp [check_module_deps, hmx]
      rw [heq] at hcm
      rw [← Option.some_inj.mp hcm]
      exact hP
    | some m =>
      have heq : check_module_deps env fuel x b =
          cmdGo env fuel m.iPfx m.iPfxes b := by
        simp [check_module_deps, hmx]
      rw [heq] at hcm
      obtain ⟨p1, p2, -, -⟩ := cmdGo_topo env hacy hlast fuel x m hmx
        m.iPfxes [] b b' (by simp) hcm
        (fun kv hkv => absurd hkv (List.not_mem_nil _)) hP.1 hP.2
      exact ⟨p1, p2⟩
  have h0 : TopoOrdered env (DepState.mk [] []).moduleDeps ∧
      NoExcl env (DepState.mk [] []).moduleDeps := by
    constructor
    · intro n i hget
      exact absurd hget (by simp)
    · intro i hi
      exact absurd hi (List.not_mem_nil _)
  exact foldlM_preserve
    (fun s => TopoOrdered env s.moduleDeps ∧ NoExcl env s.moduleDeps)
    (fun s j => check_module_deps env fuel j s) hpres mods
    (DepState.mk [] []) st' hrun h0

/-- Witness for the amended C2 on the two-module universe `c2wenv`:
the hypotheses hold and the resolver puts the imported module first. -/
theorem c2_witness :
    checkAllDeps c2wenv 10 [1] =
      some (DepState.mk [("b", "b"), ("a", "a")] [0, 1]) ∧
    TopoOrdered c2wenv [0, 1] ∧ NoExcl c2wenv [0, 1] := by
  have hacy : EnvAcyclic c2wenv := by
    intro i m hm kv hkv m2 hm2
    cases i with
    | zero =>
      have hmv : some (PModule.mk "b" "b-mod" [("b", 0)]) = some m := hm
      have hmeq := Option.some_inj.mp hmv
      subst hmeq
      have hkv2 : kv ∈ [(("b" : String), (0 : Nat))] := hkv
      have hkveq : kv = ("b", 0) := List.mem_singleton.mp hkv2
      subst hkveq
      have hm2v : some (PModule.mk "b" "b-mod" [("b", 0)]) = some m2 := hm2
      have h2 := Option.some_inj.mp hm2v
      subst h2
      exact ⟨fun h => absurd rfl h, fun _ => rfl⟩
    | succ i' =>
      cases i' with
      | zero =>
        have hmv : some (PModule.mk "a" "a-mod" [("b", 0), ("a", 1)]) = some m := hm
        have hmeq := Option.some_inj.mp hmv
        subst hmeq
        have hkv2 : kv ∈ [(("b" : String), (0 : Nat)), ("a", 1)] := hkv
        rcases List.mem_cons.mp hkv2 with h1 | h1
        · subst h1
          have hm2v : some (PModule.mk "b" "b-mod" [("b", 0)]) = some m2 := hm2
          have h2 := Option.some_inj.mp hm2v
          subst h2
          exact ⟨fun _ => Nat.zero_lt_one, fun h => absurd h (by decide)⟩
        · have hkveq : kv = ("a", 1) := List.mem_singleton.mp h1
          subst hkveq
          have hm2v : some (PModule.mk "a" "a-mod" [("b", 0), ("a", 1)]) = some m2 := hm2
          have h2 := Option.some_inj.mp hm2v
          subst h2
          exact ⟨fun h => absurd rfl h, fun _ => rfl⟩
      | succ n =>
        exact Option.noConfusion hm
  have hlast : SelfLast c2wenv := by
    intro i m hm l1 kv l2 hsplit hkvi kv2 hkv2
    cases i with
    | zero =>
      have hmv : some (PModule.mk "b" "b-mod" [("b", 0)]) = some m := hm
      have hmeq := Option.some_inj.mp hmv
      subst hmeq
      have hs : [(("b" : String), (0 : Nat))] = l1 ++ kv :: l2 := hsplit
      obtain ⟨-, -, hl2⟩ := singleton_decomp _ _ _ _ hs
      subst hl2
      exact absurd hkv2 (List.not_mem_nil _)
    | succ i' =>
      cases i' with
      | zero =>
        have hmv : some (PModule.mk "a" "a-mod" [("b", 0), ("a", 1)]) = some m := hm
        have hmeq := Option.some_inj.mp hmv
        subst hmeq
        have hs : [(("b" : String), (0 : Nat)), ("a", 1)] = l1 ++ kv :: l2 := hsplit
        rcases pair_decomp _ _ _ _ _ hs with ⟨h1, h2, h3⟩ | ⟨h1, h2, h3⟩
        · subst h2
          exact absurd hkvi (by decide)
        · subst h3
          exact absurd hkv2 (List.not_mem_nil _)
      | succ n =>
        exact Option.noConfusion hm
  obtain ⟨h1, h2⟩ := c2_topological_order c2wenv hacy hlast 10 [1]
    (DepState.mk [("b", "b"), ("a", "a")] [0, 1]) (by decide)
  exact ⟨by decide, h1, h2⟩

/-- Witness for the amended C9 on the concrete hyphenated-leaf struct. -/
theorem c9_witness :
    "#[serde(deny_unknown_fields)]" ∈
      ["#[derive(Deserialize, Debug, Default)]",
       "#[serde(deny_unknown_fields)]",
       "#[serde(rename = \"local-address\")]"] ∧
    (∀ l ∈ ["// struct for container p:peer.", "pub(crate) struct Peer \x7b",
            "// original -> p:local-address",
            "pub(crate) local_address:Option<String>,", "\x7d"], fdLineHead l) :=
  by
  have h := c9_stream_split.1 (VCtx.mk (RegState.mk [] []) []) c9ent
    ["// struct for container p:peer.", "pub(crate) struct Peer \x7b",
     "// original -> p:local-address",
     "pub(crate) local_address:Option<String>,", "\x7d"]
    ["#[derive(Deserialize, Debug, Default)]",
     "#[serde(deny_unknown_fields)]",
     "#[serde(rename = \"local-address\")]"]
    (by decide) (by decide)
  exact ⟨h.2.1, h.2.2.1⟩

end Bgp
